import Mathlib

/-!
# The sharded transaction pool

A shallow embedding of `dataRetriever/txpool/shardedTxPool.go`.

The pool keeps a Go map from routing keys (`cacheID`) to pointers to
`txPoolShard` objects, each of which holds a pointer to a `txcache.TxCache`.
Pointers are addresses into two object heaps (one of shards, one of caches), so
that "the same partition instance" is "the same address". The goroutines
started by `go handler(txHash)` are recorded, in the order they are started,
in a log. Every method is a function from the memory before the call to the
outcome of the call (a returned value or the message of a panic) and the memory
after it. Locks are not modelled: the embedding is the sequential behaviour of
each method.

`txcache.TxCache` is an external collaborator whose code is not part of the
sources at hand: its three operations used by the pool are a parameter
(`TxCacheOps`), and what a theorem needs from them is a hypothesis of that
theorem.
-/

namespace txpool

/-- A Go byte slice (a transaction hash), compared by content. -/
abbrev ByteSlice := List Nat

/-- An address in an object heap: the value of a Go pointer. An address outside the heap
plays the part of the nil pointer: dereferencing it faults. -/
abbrev Addr := Nat

/-- A value of the interface type data.TransactionHandler: none is the nil interface. -/
abbrev TransactionHandler (Tx : Type) := Option Tx

/-- The outcome of a call: the value it returns, or the message of the panic that ends it. -/
abbrev Outcome (α : Type) := Except String α

/-- Modelled from the spec: the declaration of storageUnit.CacheConfig is not among the
sources; the spec calls it a small struct of integers holding the shard-count hint and
similar capacity parameters. The pool reads the field Shards only. -/
structure CacheConfig where
  Size : Nat
  Shards : Nat
  deriving DecidableEq, Repr

/-- The operations of txcache.TxCache that the pool calls, over cache contents C.
NewTxCache builds the contents of a new cache from the sizing hint; AddTx gives the
contents after the insertion together with the two results (ok, added); GetByTxHash
gives the two results (tx, ok) and reads only. -/
structure TxCacheOps (C Tx : Type) where
  NewTxCache : Nat → C
  AddTx : C → ByteSlice → TransactionHandler Tx → C × Bool × Bool
  GetByTxHash : C → ByteSlice → TransactionHandler Tx × Bool

/-- The struct txPoolShard: the routing key and the pointer to the cache. -/
structure txPoolShard where
  CacheID : String
  Cache : Addr
  deriving DecidableEq, Repr

/-- The struct shardedTxPool, without its two locks. backingMap is the Go map
from routing key to shard pointer, onAddCallbacks the slice of registered handlers. -/
structure shardedTxPool (H : Type) where
  backingMap : String → Option Addr
  cacheConfig : CacheConfig
  onAddCallbacks : List H

/-- The memory a pool lives in: the pool object, the heap of txPoolShard objects, the
heap of cache contents, and the log of goroutines started (handler, argument). -/
structure Memory (C H : Type) where
  txPool : shardedTxPool H
  shards : List txPoolShard
  caches : List C
  goroutines : List (H × ByteSlice)

/-- A value of type interface{} as AddData receives it: the nil interface, a value
whose dynamic type implements data.TransactionHandler, or a value of another dynamic
type, given by the name of that type and the name of the method of
data.TransactionHandler that the run time reports it to lack. -/
inductive Value (Tx : Type) where
  | nil
  | transaction (tx : Tx)
  | other (dynamicType : String) (missingMethod : String)

/-- The message of the run-time panic of a nil pointer dereference. -/
def nilDereference : String :=
  "runtime error: invalid memory address or nil pointer dereference"

variable {C Tx H : Type}

/-- NewShardedTxPool: a pool with an empty map and no callbacks, in an empty memory. -/
def NewShardedTxPool (config : CacheConfig) : Memory C H :=
  { txPool := { backingMap := fun _ => none, cacheConfig := config, onAddCallbacks := [] },
    shards := [], caches := [], goroutines := [] }

/-- The method getOrCreateShard: look the key up; on a miss look it up again (the second
check under the write lock) and, when still missing, allocate a cache and a shard and
store the shard pointer under the key. Returns the shard pointer. -/
def getOrCreateShard (ops : TxCacheOps C Tx) (cacheID : String) (m : Memory C H) :
    Addr × Memory C H :=
  match m.txPool.backingMap cacheID with
  | some shard => (shard, m)
  | none =>
    match m.txPool.backingMap cacheID with
    | some shard => (shard, m)
    | none =>
      let nChunksHint := m.txPool.cacheConfig.Shards
      let cache : Addr := m.caches.length
      let shard : Addr := m.shards.length
      (shard,
        { m with
          caches := m.caches ++ [ops.NewTxCache nChunksHint]
          shards := m.shards ++ [{ CacheID := cacheID, Cache := cache }]
          txPool := { m.txPool with
            backingMap := Function.update m.txPool.backingMap cacheID (some shard) } })

/-- The method getTxCache: the cache pointer of the shard of the key. -/
def getTxCache (ops : TxCacheOps C Tx) (cacheID : String) (m : Memory C H) :
    Outcome Addr × Memory C H :=
  let r := getOrCreateShard ops cacheID m
  match r.2.shards[r.1]? with
  | none => (.error nilDereference, r.2)
  | some shard => (.ok shard.Cache, r.2)

/-- The method ShardDataStore: the cache of the key, as a storage.Cacher. -/
def ShardDataStore (ops : TxCacheOps C Tx) (cacheID : String) (m : Memory C H) :
    Outcome Addr × Memory C H :=
  getTxCache ops cacheID m

/-- The method onAdded: start one goroutine per registered handler, in order. -/
def onAdded (txHash : ByteSlice) (m : Memory C H) : Outcome Unit × Memory C H :=
  (.ok (), { m with
    goroutines := m.goroutines ++ m.txPool.onAddCallbacks.map (fun handler => (handler, txHash)) })

/-- The method addTx: resolve the shard, insert into its cache, notify when added. -/
def addTx (ops : TxCacheOps C Tx) (txHash : ByteSlice) (tx : TransactionHandler Tx)
    (cacheID : String) (m : Memory C H) : Outcome Unit × Memory C H :=
  let r := getOrCreateShard ops cacheID m
  match r.2.shards[r.1]? with
  | none => (.error nilDereference, r.2)
  | some shard =>
    let cache := shard.Cache
    match r.2.caches[cache]? with
    | none => (.error nilDereference, r.2)
    | some contents =>
      let res := ops.AddTx contents txHash tx
      let m2 : Memory C H := { r.2 with caches := r.2.caches.set cache res.1 }
      if res.2.2 then onAdded txHash m2 else (.ok (), m2)

/-- The type assertion value.(data.TransactionHandler), with the messages of the run-time
panic of a failed assertion to an interface type. -/
def assertTransactionHandler : Value Tx → Outcome (TransactionHandler Tx)
  | .transaction tx => .ok (some tx)
  | .nil => .error "interface conversion: interface is nil, not data.TransactionHandler"
  | .other dynamicType missingMethod =>
    .error ("interface conversion: " ++ dynamicType ++
      " is not data.TransactionHandler: missing method " ++ missingMethod)

/-- The method AddData: assert the type of the value, then addTx. -/
def AddData (ops : TxCacheOps C Tx) (key : ByteSlice) (value : Value Tx) (cacheID : String)
    (m : Memory C H) : Outcome Unit × Memory C H :=
  match assertTransactionHandler value with
  | .error msg => (.error msg, m)
  | .ok tx => addTx ops key tx cacheID m

/-- The loop of searchFirstTx over the keys the range statement yields, in the order
it yields them: the first cache that reports the hash ends the search. -/
def searchFirstTx (ops : TxCacheOps C Tx) (txHash : ByteSlice) (m : Memory C H) :
    List String → Outcome (TransactionHandler Tx × Bool) × Memory C H
  | [] => (.ok (none, false), m)
  | key :: rest =>
    match m.txPool.backingMap key with
    | none => (.error nilDereference, m)
    | some shard =>
      match m.shards[shard]? with
      | none => (.error nilDereference, m)
      | some sh =>
        match m.caches[sh.Cache]? with
        | none => (.error nilDereference, m)
        | some contents =>
          let res := ops.GetByTxHash contents txHash
          if res.2 then (.ok (res.1, res.2), m) else searchFirstTx ops txHash m rest

/-- The method SearchFirstData. The order in which the range statement visits the keys
of the map is chosen by the Go run time: it is the argument order. -/
def SearchFirstData (ops : TxCacheOps C Tx) (order : List String) (key : ByteSlice)
    (m : Memory C H) : Outcome (TransactionHandler Tx × Bool) × Memory C H :=
  searchFirstTx ops key m order

/-- The method RemoveData. -/
def RemoveData (_key : ByteSlice) (_cacheID : String) (m : Memory C H) :
    Outcome Unit × Memory C H :=
  (.error "shardedTxPool.RemoveData is not implemented", m)

/-- The method removeTx: its body is commented out. -/
def removeTx (_txHash : ByteSlice) (_cacheID : String) (m : Memory C H) :
    Outcome Unit × Memory C H :=
  (.ok (), m)

/-- The method RemoveSetOfDataFromPool: its body is commented out. -/
def RemoveSetOfDataFromPool (_keys : List ByteSlice) (_cacheID : String) (m : Memory C H) :
    Outcome Unit × Memory C H :=
  (.ok (), m)

/-- The method removeTxBulk: its body is commented out. -/
def removeTxBulk (_txHashes : List ByteSlice) (_cacheID : String) (m : Memory C H) :
    Outcome Unit × Memory C H :=
  (.ok (), m)

/-- The method RemoveDataFromAllShards. -/
def RemoveDataFromAllShards (_key : ByteSlice) (m : Memory C H) : Outcome Unit × Memory C H :=
  (.error "shardedTxPool.RemoveDataFromAllShards is not implemented", m)

/-- The method removeTxFromAllShards: its body is commented out. -/
def removeTxFromAllShards (_txHash : ByteSlice) (m : Memory C H) : Outcome Unit × Memory C H :=
  (.ok (), m)

/-- The method MergeShardStores: its body is commented out. -/
def MergeShardStores (_sourceCacheID _destCacheID : String) (m : Memory C H) :
    Outcome Unit × Memory C H :=
  (.ok (), m)

/-- The method MoveData. -/
def MoveData (_sourceCacheID _destCacheID : String) (_key : List ByteSlice) (m : Memory C H) :
    Outcome Unit × Memory C H :=
  (.error "shardedTxPool.MoveData is not implemented", m)

/-- The method MoveTxs: its body is commented out. -/
def MoveTxs (_sourceCacheID _destCacheID : String) (_txHashes : List ByteSlice)
    (m : Memory C H) : Outcome Unit × Memory C H :=
  (.ok (), m)

/-- The method Clear: its body is commented out. -/
def Clear (m : Memory C H) : Outcome Unit × Memory C H :=
  (.ok (), m)

/-- The method ClearShardStore: its body is commented out. -/
def ClearShardStore (_cacheID : String) (m : Memory C H) : Outcome Unit × Memory C H :=
  (.ok (), m)

/-- The method CreateShardStore. -/
def CreateShardStore (_cacheID : String) (m : Memory C H) : Outcome Unit × Memory C H :=
  (.error
    "shardedTxPool.CreateShardStore() is not implemented (not needed; shard creation is managed internally)",
    m)

/-- The method RegisterHandler: its body is commented out. The handler is a Go func
value, none being the nil func. -/
def RegisterHandler (_handler : Option H) (m : Memory C H) : Outcome Unit × Memory C H :=
  (.ok (), m)

/-- The method IsInterfaceNil: the pool in the memory is not the nil pointer. -/
def IsInterfaceNil (m : Memory C H) : Outcome Bool × Memory C H :=
  (.ok false, m)

/-! ## The facade as a whole -/

/-- A call of one method of the interface dataRetriever.ShardedDataCacherNotifier, with
its arguments. For SearchFirstData the order is the one the range statement takes. -/
inductive Call (Tx H : Type) where
  | ShardDataStore (cacheID : String)
  | AddData (key : ByteSlice) (value : Value Tx) (cacheID : String)
  | SearchFirstData (order : List String) (key : ByteSlice)
  | RemoveData (key : ByteSlice) (cacheID : String)
  | RemoveSetOfDataFromPool (keys : List ByteSlice) (cacheID : String)
  | RemoveDataFromAllShards (key : ByteSlice)
  | MergeShardStores (sourceCacheID destCacheID : String)
  | MoveData (sourceCacheID destCacheID : String) (key : List ByteSlice)
  | Clear
  | ClearShardStore (cacheID : String)
  | CreateShardStore (cacheID : String)
  | RegisterHandler (handler : Option H)
  | IsInterfaceNil

/-- Forget the value a call returns, keeping whether it returned or panicked. -/
def discard {α σ : Type} (r : Outcome α × σ) : Outcome Unit × σ :=
  (match r.1 with
    | .ok _ => .ok ()
    | .error msg => .error msg, r.2)

/-- Run one call of the facade. -/
def Call.exec (ops : TxCacheOps C Tx) : Call Tx H → Memory C H → Outcome Unit × Memory C H
  | .ShardDataStore cacheID, m => discard (txpool.ShardDataStore ops cacheID m)
  | .AddData key value cacheID, m => txpool.AddData ops key value cacheID m
  | .SearchFirstData order key, m => discard (txpool.SearchFirstData ops order key m)
  | .RemoveData key cacheID, m => txpool.RemoveData key cacheID m
  | .RemoveSetOfDataFromPool keys cacheID, m => txpool.RemoveSetOfDataFromPool keys cacheID m
  | .RemoveDataFromAllShards key, m => txpool.RemoveDataFromAllShards key m
  | .MergeShardStores source dest, m => txpool.MergeShardStores source dest m
  | .MoveData source dest key, m => txpool.MoveData source dest key m
  | .Clear, m => txpool.Clear m
  | .ClearShardStore cacheID, m => txpool.ClearShardStore cacheID m
  | .CreateShardStore cacheID, m => txpool.CreateShardStore cacheID m
  | .RegisterHandler handler, m => txpool.RegisterHandler handler m
  | .IsInterfaceNil, m => discard (txpool.IsInterfaceNil m)

/-- Run a sequence of calls, each from the memory the one before it left (a call that
panics leaves the memory it had reached). -/
def run (ops : TxCacheOps C Tx) (calls : List (Call Tx H)) (m : Memory C H) : Memory C H :=
  calls.foldl (fun acc call => (call.exec ops acc).2) m

/-- The memories reachable from a newly constructed pool by calls of the facade. -/
def Reachable (ops : TxCacheOps C Tx) (m : Memory C H) : Prop :=
  ∃ (config : CacheConfig) (calls : List (Call Tx H)), m = run ops calls (NewShardedTxPool config)

/-! ## Vocabulary of the properties -/

/-- The contents of the cache of the partition registered under a key: none when the
key is unseen (or when a pointer on the way does not point to an object). -/
def partitionCache (m : Memory C H) (k : String) : Option C :=
  match m.txPool.backingMap k with
  | none => none
  | some a =>
    match m.shards[a]? with
    | none => none
    | some sh => m.caches[sh.Cache]?

/-- Whether the partition of a key holds a hash: its cache reports the hash found. -/
def holds (ops : TxCacheOps C Tx) (m : Memory C H) (k : String) (h : ByteSlice) : Bool :=
  match partitionCache m k with
  | none => false
  | some c => (ops.GetByTxHash c h).2

/-- The set of keys of the registry. -/
def keys (m : Memory C H) : Set String :=
  {k | m.txPool.backingMap k ≠ none}

/-- An order in which the range statement may visit the map: every key once. -/
def RangeOrder (m : Memory C H) (order : List String) : Prop :=
  order.Nodup ∧ ∀ k, k ∈ order ↔ m.txPool.backingMap k ≠ none

/-- A well-formed memory: every registered shard pointer points to a shard whose cache
pointer points to a cache, and no cache belongs to the partitions of two keys. -/
structure WellFormed (m : Memory C H) : Prop where
  valid : ∀ k a, m.txPool.backingMap k = some a →
    ∃ sh, m.shards[a]? = some sh ∧ sh.Cache < m.caches.length
  owned : ∀ k₁ k₂ a₁ a₂ sh₁ sh₂, m.txPool.backingMap k₁ = some a₁ →
    m.txPool.backingMap k₂ = some a₂ → m.shards[a₁]? = some sh₁ → m.shards[a₂]? = some sh₂ →
    sh₁.Cache = sh₂.Cache → k₁ = k₂

/-! ## A cache to run the pool on -/

/-- Modelled from the spec: the code of txcache.TxCache is not among the sources. The
spec gives its contract: insert(hash, transaction) deduplicates by hash and reports
whether the hash was newly added, lookupByHash(hash) gives (transaction, found), and
construction takes a sizing hint. The contents are the list of entries, oldest first. -/
def specTxCache : TxCacheOps (List (ByteSlice × TransactionHandler Tx)) Tx where
  NewTxCache := fun _ => []
  AddTx := fun c h tx =>
    match c.lookup h with
    | some _ => (c, true, false)
    | none => (c ++ [(h, tx)], true, true)
  GetByTxHash := fun c h =>
    match c.lookup h with
    | some tx => (tx, true)
    | none => (none, false)

/-- A pool with two registered handlers and no partition, over the cache of the spec. -/
def examplePool : Memory (List (ByteSlice × TransactionHandler Nat)) String :=
  { txPool := { backingMap := fun _ => none, cacheConfig := { Size := 1000, Shards := 16 },
                onAddCallbacks := ["f", "g"] },
    shards := [], caches := [], goroutines := [] }

/-- The example pool after the transaction 7 with hash 0xAA was added under "1_2". -/
def examplePool₁ : Memory (List (ByteSlice × TransactionHandler Nat)) String :=
  (AddData specTxCache [170] (.transaction 7) "1_2" examplePool).2

/-- The example pool after, then, the transaction 8 with hash 0xBB was added under "0_1". -/
def examplePool₂ : Memory (List (ByteSlice × TransactionHandler Nat)) String :=
  (AddData specTxCache [187] (.transaction 8) "0_1" examplePool₁).2

/-- A newly constructed pool over the cache of the spec, with handlers named by strings. -/
def exampleNewPool : Memory (List (ByteSlice × TransactionHandler Nat)) String :=
  NewShardedTxPool { Size := 1000, Shards := 16 }

/-! ## Further vocabulary -/

/-- Whether the type assertion value.(data.TransactionHandler) succeeds. -/
def Value.isTransactionHandler : Value Tx → Bool
  | .transaction _ => true
  | .nil => false
  | .other _ _ => false

/-- Every registered shard carries the key it is registered under. -/
def Keyed (m : Memory C H) : Prop :=
  ∀ k a sh, m.txPool.backingMap k = some a → m.shards[a]? = some sh → sh.CacheID = k

/-- Every shard object of the heap is the one registered under its own CacheID. -/
def Registered (m : Memory C H) : Prop :=
  ∀ a sh, m.shards[a]? = some sh → m.txPool.backingMap sh.CacheID = some a

/-! ## Concurrent callers of getOrCreateShard

Several goroutines call getOrCreateShard for the same key on the same pool. Each
caller advances by the steps below, one shared access per step; the read-write lock
txPool.mutex is a count of read holders and a flag for the write holder, and a caller
that asks for a lock it cannot have stays where it is. A schedule is the list of the
callers that take the successive steps. -/

/-- Where a caller of getOrCreateShard stands in the body of the method. -/
inductive Caller where
  /-- Before txPool.mutex.RLock(). -/
  | start
  /-- Holding the read lock, before the first lookup of the map. -/
  | readLocked
  /-- After the first lookup with its result, before RUnlock(). -/
  | readDone (found : Option Addr)
  /-- The first lookup missed; before txPool.mutex.Lock(). -/
  | wantLock
  /-- Holding the write lock, before the second lookup of the map. -/
  | locked
  /-- After the second lookup with its result, still holding the write lock. -/
  | rechecked (found : Option Addr)
  /-- Holding the shard to return and the write lock, before the deferred Unlock(). -/
  | created (shard : Addr)
  /-- Returned with the shard pointer. -/
  | returned (shard : Addr)
  deriving DecidableEq

/-- Whether the caller holds the write lock. -/
def Caller.inCritical : Caller → Bool
  | .locked => true
  | .rechecked _ => true
  | .created _ => true
  | _ => false

/-- Whether the caller holds the read lock. -/
def Caller.inRead : Caller → Bool
  | .readLocked => true
  | .readDone _ => true
  | _ => false

/-- The shard pointer the caller has in hand, if any. -/
def Caller.pointer : Caller → Option Addr
  | .readDone found => found
  | .rechecked found => found
  | .created shard => some shard
  | .returned shard => some shard
  | _ => none

/-- The body of the inner if of getOrCreateShard: allocate the cache and the shard and
store the shard pointer in the map under the key. -/
def createShard (ops : TxCacheOps C Tx) (cacheID : String) (m : Memory C H) :
    Addr × Memory C H :=
  let nChunksHint := m.txPool.cacheConfig.Shards
  let cache : Addr := m.caches.length
  let shard : Addr := m.shards.length
  (shard,
    { m with
      caches := m.caches ++ [ops.NewTxCache nChunksHint]
      shards := m.shards ++ [{ CacheID := cacheID, Cache := cache }]
      txPool := { m.txPool with
        backingMap := Function.update m.txPool.backingMap cacheID (some shard) } })

/-- The pool with its lock and the callers at work on it. -/
structure Race (C H : Type) where
  mem : Memory C H
  readers : Nat
  writer : Bool
  callers : List Caller

/-- One step of caller i of getOrCreateShard(cacheID). -/
def Race.step (ops : TxCacheOps C Tx) (cacheID : String) (i : Nat) (st : Race C H) :
    Race C H :=
  match st.callers[i]? with
  | none => st
  | some .start =>
    if st.writer then st
    else { st with readers := st.readers + 1, callers := st.callers.set i .readLocked }
  | some .readLocked =>
    { st with callers := st.callers.set i (.readDone (st.mem.txPool.backingMap cacheID)) }
  | some (.readDone (some shard)) =>
    { st with readers := st.readers - 1, callers := st.callers.set i (.returned shard) }
  | some (.readDone none) =>
    { st with readers := st.readers - 1, callers := st.callers.set i .wantLock }
  | some .wantLock =>
    if st.writer || st.readers != 0 then st
    else { st with writer := true, callers := st.callers.set i .locked }
  | some .locked =>
    { st with callers := st.callers.set i (.rechecked (st.mem.txPool.backingMap cacheID)) }
  | some (.rechecked (some shard)) =>
    { st with callers := st.callers.set i (.created shard) }
  | some (.rechecked none) =>
    { st with
      mem := (createShard ops cacheID st.mem).2
      callers := st.callers.set i (.created (createShard ops cacheID st.mem).1) }
  | some (.created shard) =>
    { st with writer := false, callers := st.callers.set i (.returned shard) }
  | some (.returned _) => st

/-- The callers take steps in the order of the schedule. -/
def Race.run (ops : TxCacheOps C Tx) (cacheID : String) (schedule : List Nat)
    (st : Race C H) : Race C H :=
  schedule.foldl (fun acc i => acc.step ops cacheID i) st

/-- The start: n callers about to enter the method, the lock free. -/
def Race.init (n : Nat) (m : Memory C H) : Race C H :=
  { mem := m, readers := 0, writer := false, callers := List.replicate n .start }

/-- The schedule in which the callers of the list run one after the other, each to its
end (seven steps are the longest path through the method). -/
def oneByOne (ids : List Nat) : List Nat :=
  ids.flatMap (fun i => List.replicate 7 i)

/-- An upper bound on the steps a caller has yet to take: none once it has returned. -/
def Caller.rank : Caller → Nat
  | .start => 7
  | .readLocked => 6
  | .readDone _ => 5
  | .wantLock => 4
  | .locked => 3
  | .rechecked _ => 2
  | .created _ => 1
  | .returned _ => 0

/-- The steps all callers together have yet to take, at most. -/
def Race.rank (st : Race C H) : Nat :=
  (st.callers.map Caller.rank).sum

/-- What the lock keeps true: when the write flag is set some caller holds the write
lock, and the reader count is the number of callers holding the read lock. -/
structure RaceLive (st : Race C H) : Prop where
  holder : st.writer = true →
    ∃ (i : Nat) (ci : Caller), st.callers[i]? = some ci ∧ ci.inCritical = true
  count : st.readers = st.callers.countP Caller.inRead

/-- A schedule for three callers that take one step each in turn, thirteen times over:
they all miss in the first lookup and then queue for the write lock. -/
def exampleSchedule : List Nat :=
  (List.range 13).flatMap (fun _ => [0, 1, 2])

/-- What holds of the race from a memory s in which the key is unseen: at most one
caller holds the write lock and then the flag is set; the memory is s or s with the one
partition created; a pointer in the hand of a caller is that partition; a caller whose
second lookup missed still sees the memory s. -/
structure RaceInv (ops : TxCacheOps C Tx) (cacheID : String) (s : Memory C H)
    (st : Race C H) : Prop where
  excl : ∀ (i j : Nat) (ci cj : Caller), st.callers[i]? = some ci →
    st.callers[j]? = some cj → ci.inCritical = true → cj.inCritical = true → i = j
  held : ∀ (i : Nat) (ci : Caller), st.callers[i]? = some ci → ci.inCritical = true →
    st.writer = true
  memCase : st.mem = s ∨ st.mem = (createShard ops cacheID s).2
  ptr : ∀ (i : Nat) (ci : Caller) (q : Addr), st.callers[i]? = some ci →
    ci.pointer = some q → st.mem = (createShard ops cacheID s).2 ∧ q = s.shards.length
  miss : ∀ i : Nat, st.callers[i]? = some (Caller.rechecked none) → st.mem = s

end txpool

/-! # Opening topics (cmd/node/factory/structs.go) -/

namespace factory

/-- The names PrepareOpenTopics takes from the packages core and process/factory, whose
declarations are not among the sources: they are parameters. Shard ids are uint32. -/
structure Imports where
  MetachainShardId : Nat
  HeartbeatTopic : String
  TransactionTopic : String
  CommunicationIdentifierBetweenShards : Nat → Nat → String

/-- The anti-flood handler as PrepareOpenTopics sees it: the calls of SetTopicsForAll
made on it so far, each with its variadic arguments, oldest first. -/
abbrev P2PAntifloodHandler := List (List String)

/-- The method SetTopicsForAll of the anti-flood handler: the call is recorded. -/
def SetTopicsForAll (antiflood : P2PAntifloodHandler) (topics : List String) :
    P2PAntifloodHandler :=
  antiflood ++ [topics]

/-- The function PrepareOpenTopics; selfID is what shardCoordinator.SelfId() returns. -/
def PrepareOpenTopics (imp : Imports) (antiflood : P2PAntifloodHandler) (selfID : Nat) :
    P2PAntifloodHandler :=
  if selfID = imp.MetachainShardId then
    SetTopicsForAll antiflood [imp.HeartbeatTopic]
  else
    let selfShardTxTopic :=
      imp.TransactionTopic ++ imp.CommunicationIdentifierBetweenShards selfID selfID
    SetTopicsForAll antiflood [imp.HeartbeatTopic, selfShardTxTopic]

/-- Sample values for the imported names, to run PrepareOpenTopics on. -/
def exampleImports : Imports :=
  { MetachainShardId := 4294967295
    HeartbeatTopic := "heartbeat"
    TransactionTopic := "transactions"
    CommunicationIdentifierBetweenShards := fun a b =>
      if a = b then "_" ++ toString a else "_" ++ toString a ++ "_" ++ toString b }

end factory

namespace txpool

variable {C Tx H : Type}

/-! ## Resolving a key -/

theorem getOrCreateShard_of_seen (ops : TxCacheOps C Tx) (m : Memory C H) (k : String)
    (a : Addr) (hk : m.txPool.backingMap k = some a) :
    getOrCreateShard ops k m = (a, m) := by
  simp [getOrCreateShard, hk]

theorem getOrCreateShard_of_unseen (ops : TxCacheOps C Tx) (m : Memory C H) (k : String)
    (hk : m.txPool.backingMap k = none) :
    getOrCreateShard ops k m =
      (m.shards.length,
        { m with
          caches := m.caches ++ [ops.NewTxCache m.txPool.cacheConfig.Shards]
          shards := m.shards ++ [{ CacheID := k, Cache := m.caches.length }]
          txPool := { m.txPool with
            backingMap := Function.update m.txPool.backingMap k (some m.shards.length) } }) := by
  simp [getOrCreateShard, hk]

theorem partitionCache_of_unseen (m : Memory C H) (k : String)
    (hk : m.txPool.backingMap k = none) : partitionCache m k = none := by
  simp [partitionCache, hk]

/-- C1: on a key that is not in the map, getOrCreateShard (a total function: it returns)
gives the address p of a shard object that was not there before, whose CacheID is the
key and whose cache is a newly allocated one with the contents NewTxCache builds from
cacheConfig.Shards (holding no hash whenever new caches hold none); the map is the old
one updated at the key with p, so every other key maps as before; exactly one shard
and one cache are allocated, the objects already there are untouched, and the callback
set, the configuration and the goroutine log are unchanged. -/
theorem getOrCreateShard_creates_one_partition (ops : TxCacheOps C Tx) (s : Memory C H)
    (k : String) (hk : s.txPool.backingMap k = none) :
    let p := (getOrCreateShard ops k s).1
    let s1 := (getOrCreateShard ops k s).2
    p = s.shards.length ∧
    s1.shards = s.shards ++ [{ CacheID := k, Cache := s.caches.length }] ∧
    s1.caches = s.caches ++ [ops.NewTxCache s.txPool.cacheConfig.Shards] ∧
    s1.shards[p]? = some { CacheID := k, Cache := s.caches.length } ∧
    s1.caches[s.caches.length]? = some (ops.NewTxCache s.txPool.cacheConfig.Shards) ∧
    partitionCache s1 k = some (ops.NewTxCache s.txPool.cacheConfig.Shards) ∧
    ((∀ n h, (ops.GetByTxHash (ops.NewTxCache n) h).2 = false) →
      ∀ h, holds ops s1 k h = false) ∧
    s1.txPool.backingMap = Function.update s.txPool.backingMap k (some p) ∧
    s1.txPool.backingMap k = some p ∧
    (∀ k2, k2 ≠ k → s1.txPool.backingMap k2 = s.txPool.backingMap k2) ∧
    s1.txPool.onAddCallbacks = s.txPool.onAddCallbacks ∧
    s1.txPool.cacheConfig = s.txPool.cacheConfig ∧
    s1.goroutines = s.goroutines := by
  rw [getOrCreateShard_of_unseen ops s k hk]
  have hpc : partitionCache
      ({ s with
          caches := s.caches ++ [ops.NewTxCache s.txPool.cacheConfig.Shards]
          shards := s.shards ++ [{ CacheID := k, Cache := s.caches.length }]
          txPool := { s.txPool with
            backingMap := Function.update s.txPool.backingMap k (some s.shards.length) } } :
        Memory C H) k = some (ops.NewTxCache s.txPool.cacheConfig.Shards) := by
    simp [partitionCache]
  refine ⟨rfl, rfl, rfl, by simp, by simp, hpc, ?_, rfl, by simp, ?_, rfl, rfl, rfl⟩
  · intro hempty h
    simp only [holds, hpc]
    exact hempty _ _
  · intro k2 hk2
    simp [Function.update, hk2]

theorem specTxCache_new_holds_nothing
    (n : Nat) (h : ByteSlice) :
    ((@specTxCache Tx).GetByTxHash ((@specTxCache Tx).NewTxCache n) h).2 = false := by
  simp [specTxCache]

/-- C1, at the example pool and the key "0_1". -/
theorem getOrCreateShard_creates_one_partition_witness :
    examplePool₁.txPool.backingMap "0_1" = none ∧
    (getOrCreateShard specTxCache "0_1" examplePool₁).1 = 1 ∧
    (getOrCreateShard specTxCache "0_1" examplePool₁).2.txPool.backingMap "0_1" = some 1 ∧
    (getOrCreateShard specTxCache "0_1" examplePool₁).2.txPool.backingMap "1_2" = some 0 ∧
    holds specTxCache (getOrCreateShard specTxCache "0_1" examplePool₁).2 "0_1" [170] = false := by
  have hk : examplePool₁.txPool.backingMap "0_1" = none := by decide
  have h := getOrCreateShard_creates_one_partition specTxCache examplePool₁ "0_1" hk
  refine ⟨hk, ?_, ?_, ?_, ?_⟩
  · exact h.1
  · exact h.2.2.2.2.2.2.2.2.1
  · rw [h.2.2.2.2.2.2.2.2.2.1 "1_2" (by decide)]; decide
  · exact h.2.2.2.2.2.2.1 specTxCache_new_holds_nothing [170]

/-! ## What resolving a key leaves alone -/

theorem getOrCreateShard_maps_key (ops : TxCacheOps C Tx) (m : Memory C H) (k : String) :
    (getOrCreateShard ops k m).2.txPool.backingMap k = some (getOrCreateShard ops k m).1 := by
  cases hk : m.txPool.backingMap k with
  | none => rw [getOrCreateShard_of_unseen ops m k hk]; simp
  | some a => rw [getOrCreateShard_of_seen ops m k a hk]; exact hk

theorem getOrCreateShard_frame (ops : TxCacheOps C Tx) (m : Memory C H) (k : String) :
    (getOrCreateShard ops k m).2.goroutines = m.goroutines ∧
    (getOrCreateShard ops k m).2.txPool.onAddCallbacks = m.txPool.onAddCallbacks ∧
    (getOrCreateShard ops k m).2.txPool.cacheConfig = m.txPool.cacheConfig := by
  cases hk : m.txPool.backingMap k with
  | none => rw [getOrCreateShard_of_unseen ops m k hk]; exact ⟨rfl, rfl, rfl⟩
  | some a => rw [getOrCreateShard_of_seen ops m k a hk]; exact ⟨rfl, rfl, rfl⟩

theorem getOrCreateShard_other_key (ops : TxCacheOps C Tx) (m : Memory C H) (k k2 : String)
    (hne : k2 ≠ k) :
    (getOrCreateShard ops k m).2.txPool.backingMap k2 = m.txPool.backingMap k2 := by
  cases hk : m.txPool.backingMap k with
  | none => rw [getOrCreateShard_of_unseen ops m k hk]; simp [Function.update, hne]
  | some a => rw [getOrCreateShard_of_seen ops m k a hk]

theorem getOrCreateShard_keeps_key (ops : TxCacheOps C Tx) (m : Memory C H) (k k2 : String)
    (a : Addr) (h2 : m.txPool.backingMap k2 = some a) :
    (getOrCreateShard ops k m).2.txPool.backingMap k2 = some a := by
  by_cases hne : k2 = k
  · subst hne
    rw [getOrCreateShard_of_seen ops m k2 a h2]; exact h2
  · rw [getOrCreateShard_other_key ops m k k2 hne]; exact h2

theorem getOrCreateShard_keeps_shard (ops : TxCacheOps C Tx) (m : Memory C H) (k : String)
    (a : Addr) (sh : txPoolShard) (ha : m.shards[a]? = some sh) :
    (getOrCreateShard ops k m).2.shards[a]? = some sh := by
  cases hk : m.txPool.backingMap k with
  | none =>
    rw [getOrCreateShard_of_unseen ops m k hk]
    have hlt : a < m.shards.length := by
      by_contra hge
      rw [List.getElem?_eq_none (Nat.le_of_not_lt hge)] at ha
      exact Option.noConfusion ha
    show (m.shards ++ _)[a]? = some sh
    rw [List.getElem?_append_left hlt]; exact ha
  | some b => rw [getOrCreateShard_of_seen ops m k b hk]; exact ha

theorem getOrCreateShard_keeps_cache (ops : TxCacheOps C Tx) (m : Memory C H) (k : String)
    (a : Addr) (c : C) (ha : m.caches[a]? = some c) :
    (getOrCreateShard ops k m).2.caches[a]? = some c := by
  cases hk : m.txPool.backingMap k with
  | none =>
    rw [getOrCreateShard_of_unseen ops m k hk]
    have hlt : a < m.caches.length := by
      by_contra hge
      rw [List.getElem?_eq_none (Nat.le_of_not_lt hge)] at ha
      exact Option.noConfusion ha
    show (m.caches ++ _)[a]? = some c
    rw [List.getElem?_append_left hlt]; exact ha
  | some b => rw [getOrCreateShard_of_seen ops m k b hk]; exact ha

theorem partitionCache_eq_some (m : Memory C H) (k : String) (c : C)
    (hc : partitionCache m k = some c) :
    ∃ a sh, m.txPool.backingMap k = some a ∧ m.shards[a]? = some sh ∧
      m.caches[sh.Cache]? = some c := by
  unfold partitionCache at hc
  cases hk : m.txPool.backingMap k with
  | none => rw [hk] at hc; exact Option.noConfusion hc
  | some a =>
    rw [hk] at hc
    cases hs : m.shards[a]? with
    | none => simp [hs] at hc
    | some sh =>
      simp only [hs] at hc
      exact ⟨a, sh, rfl, hs, hc⟩

theorem partitionCache_of_chain (m : Memory C H) (k : String) (a : Addr) (sh : txPoolShard)
    (hk : m.txPool.backingMap k = some a) (hs : m.shards[a]? = some sh) :
    partitionCache m k = m.caches[sh.Cache]? := by
  simp [partitionCache, hk, hs]

/-! ## Adding a transaction -/

theorem addTx_of_chain (ops : TxCacheOps C Tx) (m : Memory C H) (k : String) (h : ByteSlice)
    (tx : TransactionHandler Tx) (sh : txPoolShard) (c : C)
    (hs : (getOrCreateShard ops k m).2.shards[(getOrCreateShard ops k m).1]? = some sh)
    (hc : (getOrCreateShard ops k m).2.caches[sh.Cache]? = some c) :
    addTx ops h tx k m =
      (.ok (), { (getOrCreateShard ops k m).2 with
        caches := (getOrCreateShard ops k m).2.caches.set sh.Cache (ops.AddTx c h tx).1
        goroutines :=
          if (ops.AddTx c h tx).2.2 then
            m.goroutines ++ m.txPool.onAddCallbacks.map (fun handler => (handler, h))
          else m.goroutines }) := by
  obtain ⟨hg, hcb, -⟩ := getOrCreateShard_frame ops m k
  unfold addTx
  simp only [hs, hc]
  by_cases hadd : (ops.AddTx c h tx).2.2 = true
  · simp [hadd, onAdded, hg, hcb]
  · simp [hadd, hg]

theorem addTx_of_cache (ops : TxCacheOps C Tx) (m : Memory C H) (k : String) (h : ByteSlice)
    (tx : TransactionHandler Tx) (c : C)
    (hc : partitionCache (getOrCreateShard ops k m).2 k = some c) :
    ∃ sh, (getOrCreateShard ops k m).2.shards[(getOrCreateShard ops k m).1]? = some sh ∧
      (getOrCreateShard ops k m).2.caches[sh.Cache]? = some c ∧
      addTx ops h tx k m =
        (.ok (), { (getOrCreateShard ops k m).2 with
          caches := (getOrCreateShard ops k m).2.caches.set sh.Cache (ops.AddTx c h tx).1
          goroutines :=
            if (ops.AddTx c h tx).2.2 then
              m.goroutines ++ m.txPool.onAddCallbacks.map (fun handler => (handler, h))
            else m.goroutines }) := by
  obtain ⟨a, sh, hk, hs, hcc⟩ := partitionCache_eq_some _ k c hc
  rw [getOrCreateShard_maps_key] at hk
  have ha : a = (getOrCreateShard ops k m).1 := (Option.some.inj hk).symm
  subst ha
  exact ⟨sh, hs, hcc, addTx_of_chain ops m k h tx sh c hs hcc⟩

theorem addTx_frame (ops : TxCacheOps C Tx) (m : Memory C H) (k : String) (h : ByteSlice)
    (tx : TransactionHandler Tx) :
    (addTx ops h tx k m).2.txPool = (getOrCreateShard ops k m).2.txPool ∧
    (addTx ops h tx k m).2.shards = (getOrCreateShard ops k m).2.shards ∧
    (addTx ops h tx k m).2.caches.length = (getOrCreateShard ops k m).2.caches.length := by
  unfold addTx
  dsimp only
  split
  · exact ⟨rfl, rfl, rfl⟩
  · split
    · exact ⟨rfl, rfl, rfl⟩
    · split <;> simp [onAdded]

theorem addTx_partitionCache_self (ops : TxCacheOps C Tx) (m : Memory C H) (k : String)
    (h : ByteSlice) (tx : TransactionHandler Tx) (c : C)
    (hc : partitionCache (getOrCreateShard ops k m).2 k = some c) :
    partitionCache (addTx ops h tx k m).2 k = some (ops.AddTx c h tx).1 := by
  obtain ⟨sh, hs, hcc, heq⟩ := addTx_of_cache ops m k h tx c hc
  have hlt : sh.Cache < (getOrCreateShard ops k m).2.caches.length := by
    by_contra hge
    rw [List.getElem?_eq_none (Nat.le_of_not_lt hge)] at hcc
    exact Option.noConfusion hcc
  have hk := getOrCreateShard_maps_key ops m k
  rw [heq]
  simp [partitionCache, hk, hs, List.getElem?_set_self hlt]

/-- C2: let c be the contents of the cache of the partition of k once k is resolved.
When the cache reports the hash newly added, addTx returns and starts exactly the
goroutines handler(h), one per handler of the callback set, in order; when the cache
reports it not added, addTx returns and starts none. Consequently, with a cache that
deduplicates by hash (for this hash and transaction: an insert reports added exactly
when a lookup did not find the hash, and after an insert a lookup finds it), two adds
in a row of the same (h, tx) under the same key, from a memory where the partition does
not hold h, start one goroutine per handler in total, all of them in the first add. -/
theorem addTx_notifies_on_first_insertion (ops : TxCacheOps C Tx) (s : Memory C H)
    (k : String) (h : ByteSlice) (tx : TransactionHandler Tx) (c : C)
    (hc : partitionCache (getOrCreateShard ops k s).2 k = some c) :
    ((ops.AddTx c h tx).2.2 = true →
      (addTx ops h tx k s).1 = .ok () ∧
      (addTx ops h tx k s).2.goroutines =
        s.goroutines ++ s.txPool.onAddCallbacks.map (fun handler => (handler, h))) ∧
    ((ops.AddTx c h tx).2.2 = false →
      (addTx ops h tx k s).1 = .ok () ∧
      (addTx ops h tx k s).2.goroutines = s.goroutines) ∧
    ((∀ c0, (ops.AddTx c0 h tx).2.2 = !(ops.GetByTxHash c0 h).2) →
      (∀ c0, (ops.GetByTxHash (ops.AddTx c0 h tx).1 h).2 = true) →
      (ops.GetByTxHash c h).2 = false →
      (addTx ops h tx k s).1 = .ok () ∧
      (addTx ops h tx k (addTx ops h tx k s).2).1 = .ok () ∧
      (addTx ops h tx k s).2.goroutines =
        s.goroutines ++ s.txPool.onAddCallbacks.map (fun handler => (handler, h)) ∧
      (addTx ops h tx k (addTx ops h tx k s).2).2.goroutines =
        (addTx ops h tx k s).2.goroutines ∧
      (addTx ops h tx k (addTx ops h tx k s).2).2.goroutines =
        s.goroutines ++ s.txPool.onAddCallbacks.map (fun handler => (handler, h))) := by
  obtain ⟨sh, -, -, heq⟩ := addTx_of_cache ops s k h tx c hc
  have first_added : (ops.AddTx c h tx).2.2 = true →
      (addTx ops h tx k s).1 = .ok () ∧
      (addTx ops h tx k s).2.goroutines =
        s.goroutines ++ s.txPool.onAddCallbacks.map (fun handler => (handler, h)) := by
    intro hadd
    rw [heq]
    exact ⟨rfl, by simp [hadd]⟩
  refine ⟨first_added, ?_, ?_⟩
  · intro hadd
    rw [heq]
    exact ⟨rfl, by simp [hadd]⟩
  · intro hdedup hpresent habsent
    have hadd1 : (ops.AddTx c h tx).2.2 = true := by rw [hdedup c, habsent]; rfl
    obtain ⟨hok1, hg1⟩ := first_added hadd1
    -- the second add finds the key and the cache the first add left
    have hk1 : (addTx ops h tx k s).2.txPool.backingMap k =
        some (getOrCreateShard ops k s).1 := by
      rw [(addTx_frame ops s k h tx).1]; exact getOrCreateShard_maps_key ops s k
    have hres : getOrCreateShard ops k (addTx ops h tx k s).2 =
        ((getOrCreateShard ops k s).1, (addTx ops h tx k s).2) :=
      getOrCreateShard_of_seen ops _ k _ hk1
    have hc1 : partitionCache (getOrCreateShard ops k (addTx ops h tx k s).2).2 k =
        some (ops.AddTx c h tx).1 := by
      rw [hres]; exact addTx_partitionCache_self ops s k h tx c hc
    obtain ⟨sh2, -, -, heq2⟩ := addTx_of_cache ops (addTx ops h tx k s).2 k h tx _ hc1
    have hadd2 : (ops.AddTx (ops.AddTx c h tx).1 h tx).2.2 = false := by
      rw [hdedup, hpresent c]; rfl
    have hg2 : (addTx ops h tx k (addTx ops h tx k s).2).2.goroutines =
        (addTx ops h tx k s).2.goroutines := by
      rw [heq2]; simp [hadd2]
    have hok2 : (addTx ops h tx k (addTx ops h tx k s).2).1 = .ok () := by
      rw [heq2]
    exact ⟨hok1, hok2, hg1, hg2, hg2.trans hg1⟩

theorem specTxCache_lookup_append (c : List (ByteSlice × TransactionHandler Tx))
    (h h2 : ByteSlice) (tx : TransactionHandler Tx) :
    (c ++ [(h, tx)]).lookup h2 =
      match c.lookup h2 with
      | some v => some v
      | none => if h2 = h then some tx else none := by
  induction c with
  | nil =>
    by_cases he : h2 = h
    · simp [List.lookup, he]
    · have : (h2 == h) = false := by simpa using he
      simp [List.lookup, he, this]
  | cons e rest ih =>
    obtain ⟨k, v⟩ := e
    by_cases he : h2 = k
    · subst he; simp [List.lookup]
    · have : (h2 == k) = false := by simpa using he
      simp only [List.cons_append, List.lookup, this]
      exact ih

theorem specTxCache_dedup (c : List (ByteSlice × TransactionHandler Tx)) (h : ByteSlice)
    (tx : TransactionHandler Tx) :
    ((@specTxCache Tx).AddTx c h tx).2.2 = !((@specTxCache Tx).GetByTxHash c h).2 := by
  simp only [specTxCache]
  cases c.lookup h <;> rfl

theorem specTxCache_present (c : List (ByteSlice × TransactionHandler Tx)) (h : ByteSlice)
    (tx : TransactionHandler Tx) :
    ((@specTxCache Tx).GetByTxHash ((@specTxCache Tx).AddTx c h tx).1 h).2 = true := by
  simp only [specTxCache]
  cases hl : c.lookup h with
  | some v => simp [hl]
  | none => simp [hl, specTxCache_lookup_append]

/-- C2, at the example pool: the hash 0xAA added twice under "1_2" starts the two
handlers once each, in the first add. -/
theorem addTx_notifies_on_first_insertion_witness :
    partitionCache (getOrCreateShard specTxCache "1_2" examplePool).2 "1_2" = some [] ∧
    (addTx specTxCache [170] (some 7) "1_2" examplePool).2.goroutines =
      [("f", [170]), ("g", [170])] ∧
    (addTx specTxCache [170] (some 7) "1_2"
      (addTx specTxCache [170] (some 7) "1_2" examplePool).2).2.goroutines =
      [("f", [170]), ("g", [170])] := by
  have hc : partitionCache (getOrCreateShard specTxCache "1_2" examplePool).2 "1_2" =
      some [] := by decide
  have h := (addTx_notifies_on_first_insertion specTxCache examplePool "1_2" [170] (some 7)
    [] hc).2.2 (fun c0 => specTxCache_dedup c0 _ _) (fun c0 => specTxCache_present c0 _ _) rfl
  exact ⟨hc, h.2.2.1, h.2.2.2.2⟩

/-! ## Well-formed memories -/

theorem lt_length_of_getElem?_eq_some {α : Type} (l : List α) (i : Nat) (x : α)
    (hx : l[i]? = some x) : i < l.length := by
  by_contra hge
  rw [List.getElem?_eq_none (Nat.le_of_not_lt hge)] at hx
  exact Option.noConfusion hx

theorem wellFormed_new (config : CacheConfig) :
    WellFormed (NewShardedTxPool config : Memory C H) :=
  ⟨fun _ _ hk => Option.noConfusion hk, fun _ _ _ _ _ _ hk => Option.noConfusion hk⟩

theorem wellFormed_getOrCreateShard (ops : TxCacheOps C Tx) (m : Memory C H) (k : String)
    (hwf : WellFormed m) : WellFormed (getOrCreateShard ops k m).2 := by
  cases hk : m.txPool.backingMap k with
  | some a => rw [getOrCreateShard_of_seen ops m k a hk]; exact hwf
  | none =>
    rw [getOrCreateShard_of_unseen ops m k hk]
    -- the chain of an old key is the old chain, the chain of the new key is the new pair
    have old : ∀ k2 a, k2 ≠ k → m.txPool.backingMap k2 = some a →
        ∃ sh, m.shards[a]? = some sh ∧ sh.Cache < m.caches.length ∧
          (m.shards ++ [({ CacheID := k, Cache := m.caches.length } : txPoolShard)])[a]? =
            some sh := by
      intro k2 a _ h2
      obtain ⟨sh, hs, hlt⟩ := hwf.valid k2 a h2
      refine ⟨sh, hs, hlt, ?_⟩
      rw [List.getElem?_append_left (lt_length_of_getElem?_eq_some _ _ _ hs)]; exact hs
    constructor
    · intro k2 a h2
      by_cases hne : k2 = k
      · subst hne
        simp only [Function.update_same] at h2
        have ha : a = m.shards.length := (Option.some.inj h2).symm
        subst ha
        exact ⟨{ CacheID := k2, Cache := m.caches.length }, by simp, by simp⟩
      · simp only [Function.update_noteq hne] at h2
        obtain ⟨sh, -, hlt, hs⟩ := old k2 a hne h2
        exact ⟨sh, hs, by rw [List.length_append]; exact Nat.lt_succ_of_lt hlt⟩
    · intro k₁ k₂ a₁ a₂ sh₁ sh₂ h1 h2 hs1 hs2 heq
      by_cases hne1 : k₁ = k
      · by_cases hne2 : k₂ = k
        · rw [hne1, hne2]
        · exfalso
          subst hne1
          simp only [Function.update_same] at h1
          simp only [Function.update_noteq hne2] at h2
          have ha : a₁ = m.shards.length := (Option.some.inj h1).symm
          subst ha
          obtain ⟨sh, -, hlt, hs⟩ := old k₂ a₂ hne2 h2
          have e2 : sh₂ = sh := Option.some.inj (hs2.symm.trans hs)
          have e1 : sh₁ = { CacheID := k₁, Cache := m.caches.length } := by
            have : (m.shards ++ [({ CacheID := k₁, Cache := m.caches.length } : txPoolShard)])[
                m.shards.length]? = some { CacheID := k₁, Cache := m.caches.length } := by simp
            exact Option.some.inj (hs1.symm.trans this)
          rw [e1, e2] at heq
          exact absurd heq (Nat.ne_of_gt hlt)
      · by_cases hne2 : k₂ = k
        · exfalso
          subst hne2
          simp only [Function.update_same] at h2
          simp only [Function.update_noteq hne1] at h1
          have ha : a₂ = m.shards.length := (Option.some.inj h2).symm
          subst ha
          obtain ⟨sh, -, hlt, hs⟩ := old k₁ a₁ hne1 h1
          have e1 : sh₁ = sh := Option.some.inj (hs1.symm.trans hs)
          have e2 : sh₂ = { CacheID := k₂, Cache := m.caches.length } := by
            have : (m.shards ++ [({ CacheID := k₂, Cache := m.caches.length } : txPoolShard)])[
                m.shards.length]? = some { CacheID := k₂, Cache := m.caches.length } := by simp
            exact Option.some.inj (hs2.symm.trans this)
          rw [e1, e2] at heq
          exact absurd heq (Nat.ne_of_lt hlt)
        · simp only [Function.update_noteq hne1] at h1
          simp only [Function.update_noteq hne2] at h2
          obtain ⟨t1, ht1, -, hs1n⟩ := old k₁ a₁ hne1 h1
          obtain ⟨t2, ht2, -, hs2n⟩ := old k₂ a₂ hne2 h2
          have e1 : sh₁ = t1 := Option.some.inj (hs1.symm.trans hs1n)
          have e2 : sh₂ = t2 := Option.some.inj (hs2.symm.trans hs2n)
          subst e1 e2
          exact hwf.owned k₁ k₂ a₁ a₂ sh₁ sh₂ h1 h2 ht1 ht2 heq

theorem wellFormed_partitionCache (m : Memory C H) (k : String) (a : Addr)
    (hwf : WellFormed m) (hk : m.txPool.backingMap k = some a) :
    ∃ c, partitionCache m k = some c := by
  obtain ⟨sh, hs, hlt⟩ := hwf.valid k a hk
  rw [partitionCache_of_chain m k a sh hk hs]
  exact ⟨m.caches[sh.Cache], List.getElem?_eq_getElem hlt⟩

theorem wellFormed_resolved_cache (ops : TxCacheOps C Tx) (m : Memory C H) (k : String)
    (hwf : WellFormed m) : ∃ c, partitionCache (getOrCreateShard ops k m).2 k = some c :=
  wellFormed_partitionCache _ k _ (wellFormed_getOrCreateShard ops m k hwf)
    (getOrCreateShard_maps_key ops m k)

theorem getOrCreateShard_partitionCache_of_seen (ops : TxCacheOps C Tx) (m : Memory C H)
    (k k2 : String) (a : Addr) (hwf : WellFormed m) (h2 : m.txPool.backingMap k2 = some a) :
    partitionCache (getOrCreateShard ops k m).2 k2 = partitionCache m k2 := by
  obtain ⟨sh, hs, hlt⟩ := hwf.valid k2 a h2
  rw [partitionCache_of_chain m k2 a sh h2 hs,
    partitionCache_of_chain _ k2 a sh (getOrCreateShard_keeps_key ops m k k2 a h2)
      (getOrCreateShard_keeps_shard ops m k a sh hs)]
  rw [List.getElem?_eq_getElem hlt]
  exact getOrCreateShard_keeps_cache ops m k _ _ (List.getElem?_eq_getElem hlt)

theorem getOrCreateShard_partitionCache_other (ops : TxCacheOps C Tx) (m : Memory C H)
    (k k2 : String) (hwf : WellFormed m) (hne : k2 ≠ k) :
    partitionCache (getOrCreateShard ops k m).2 k2 = partitionCache m k2 := by
  cases h2 : m.txPool.backingMap k2 with
  | some a => exact getOrCreateShard_partitionCache_of_seen ops m k k2 a hwf h2
  | none =>
    rw [partitionCache_of_unseen m k2 h2]
    exact partitionCache_of_unseen _ k2 ((getOrCreateShard_other_key ops m k k2 hne).trans h2)

theorem wellFormed_of_same_shape (m1 m2 : Memory C H) (hp : m1.txPool = m2.txPool)
    (hs : m1.shards = m2.shards) (hc : m1.caches.length = m2.caches.length)
    (hwf : WellFormed m2) : WellFormed m1 := by
  constructor
  · intro k a hk
    rw [hp] at hk
    obtain ⟨sh, h1, h2⟩ := hwf.valid k a hk
    exact ⟨sh, by rw [hs]; exact h1, by rw [hc]; exact h2⟩
  · intro k₁ k₂ a₁ a₂ sh₁ sh₂ h1 h2 hs1 hs2 heq
    rw [hp] at h1 h2
    rw [hs] at hs1 hs2
    exact hwf.owned k₁ k₂ a₁ a₂ sh₁ sh₂ h1 h2 hs1 hs2 heq

theorem wellFormed_addTx (ops : TxCacheOps C Tx) (m : Memory C H) (k : String)
    (h : ByteSlice) (tx : TransactionHandler Tx) (hwf : WellFormed m) :
    WellFormed (addTx ops h tx k m).2 := by
  obtain ⟨hp, hs, hc⟩ := addTx_frame ops m k h tx
  exact wellFormed_of_same_shape _ _ hp hs hc (wellFormed_getOrCreateShard ops m k hwf)

theorem addTx_partitionCache_other (ops : TxCacheOps C Tx) (m : Memory C H) (k k2 : String)
    (h : ByteSlice) (tx : TransactionHandler Tx) (hwf : WellFormed m) (hne : k2 ≠ k) :
    partitionCache (addTx ops h tx k m).2 k2 = partitionCache m k2 := by
  have hwf1 := wellFormed_getOrCreateShard ops m k hwf
  rw [← getOrCreateShard_partitionCache_other ops m k k2 hwf hne]
  obtain ⟨c, hc⟩ := wellFormed_resolved_cache ops m k hwf
  obtain ⟨sh, hs, -, heq⟩ := addTx_of_cache ops m k h tx c hc
  have hk := getOrCreateShard_maps_key ops m k
  cases h2 : (getOrCreateShard ops k m).2.txPool.backingMap k2 with
  | none =>
    rw [partitionCache_of_unseen _ k2 h2]
    apply partitionCache_of_unseen
    rw [(addTx_frame ops m k h tx).1]; exact h2
  | some a2 =>
    obtain ⟨sh2, hs2, -⟩ := hwf1.valid k2 a2 h2
    have hcne : sh.Cache ≠ sh2.Cache := fun e =>
      hne (hwf1.owned k k2 _ a2 sh sh2 hk h2 hs hs2 e).symm
    rw [partitionCache_of_chain _ k2 a2 sh2 h2 hs2]
    rw [heq]
    simp [partitionCache, h2, hs2, List.getElem?_set_ne hcne]

theorem AddData_transaction (ops : TxCacheOps C Tx) (m : Memory C H) (k : String)
    (h : ByteSlice) (tx : Tx) :
    AddData ops h (.transaction tx) k m = addTx ops h (some tx) k m := rfl

/-- C3: in a well-formed memory, AddData of a value that is a TransactionHandler returns;
afterwards the set of keys of the registry is the old set plus k; the partition of k
holds the hash, provided the cache makes an inserted hash present; every other key maps
to the same shard as before and the cache of its partition has exactly the contents it
had; no shard object is changed. -/
theorem AddData_touches_only_its_partition (ops : TxCacheOps C Tx) (s : Memory C H)
    (k : String) (h : ByteSlice) (tx : Tx) (hwf : WellFormed s) :
    (AddData ops h (.transaction tx) k s).1 = .ok () ∧
    keys (AddData ops h (.transaction tx) k s).2 = insert k (keys s) ∧
    ((∀ c, (ops.GetByTxHash (ops.AddTx c h (some tx)).1 h).2 = true) →
      holds ops (AddData ops h (.transaction tx) k s).2 k h = true) ∧
    (∀ k2, k2 ≠ k →
      (AddData ops h (.transaction tx) k s).2.txPool.backingMap k2 = s.txPool.backingMap k2 ∧
      partitionCache (AddData ops h (.transaction tx) k s).2 k2 = partitionCache s k2) ∧
    (∀ (a : Addr) (sh : txPoolShard), s.shards[a]? = some sh →
      (AddData ops h (.transaction tx) k s).2.shards[a]? = some sh) := by
  rw [AddData_transaction]
  obtain ⟨c, hc⟩ := wellFormed_resolved_cache ops s k hwf
  obtain ⟨sh, -, -, heq⟩ := addTx_of_cache ops s k h (some tx) c hc
  obtain ⟨hp, hsh, -⟩ := addTx_frame ops s k h (some tx)
  refine ⟨by rw [heq], ?_, ?_, ?_, ?_⟩
  · ext k2
    simp only [keys, Set.mem_setOf_eq, Set.mem_insert_iff, hp]
    by_cases hne : k2 = k
    · subst hne
      simp [getOrCreateShard_maps_key]
    · simp [hne, getOrCreateShard_other_key ops s k k2 hne]
  · intro hins
    simp only [holds, addTx_partitionCache_self ops s k h (some tx) c hc]
    exact hins c
  · intro k2 hne
    refine ⟨?_, addTx_partitionCache_other ops s k k2 h (some tx) hwf hne⟩
    rw [hp]; exact getOrCreateShard_other_key ops s k k2 hne
  · intro a sh2 ha
    rw [hsh]; exact getOrCreateShard_keeps_shard ops s k a sh2 ha

theorem wellFormed_examplePool : WellFormed examplePool :=
  ⟨fun _ _ hk => Option.noConfusion hk, fun _ _ _ _ _ _ hk => Option.noConfusion hk⟩

theorem wellFormed_examplePool₁ : WellFormed examplePool₁ :=
  wellFormed_addTx specTxCache examplePool "1_2" [170] (some 7) wellFormed_examplePool

/-- C3, at the example pool holding 0xAA under "1_2": the hash 0xBB added under "0_1". -/
theorem AddData_touches_only_its_partition_witness :
    WellFormed examplePool₁ ∧
    (AddData specTxCache [187] (.transaction 8) "0_1" examplePool₁).1 = .ok () ∧
    holds specTxCache (AddData specTxCache [187] (.transaction 8) "0_1" examplePool₁).2
      "0_1" [187] = true ∧
    partitionCache (AddData specTxCache [187] (.transaction 8) "0_1" examplePool₁).2 "1_2" =
      some [([170], some 7)] := by
  have h := AddData_touches_only_its_partition specTxCache examplePool₁ "0_1" [187] 8
    wellFormed_examplePool₁
  refine ⟨wellFormed_examplePool₁, h.1, h.2.2.1 (fun c => specTxCache_present c _ _), ?_⟩
  rw [(h.2.2.2.1 "1_2" (by decide)).2]
  decide

/-! ## Searching all partitions -/

theorem holds_of_partitionCache (ops : TxCacheOps C Tx) (m : Memory C H) (k : String)
    (h : ByteSlice) (c : C) (hc : partitionCache m k = some c) :
    holds ops m k h = (ops.GetByTxHash c h).2 := by
  simp [holds, hc]

theorem seen_of_holds (ops : TxCacheOps C Tx) (m : Memory C H) (k : String) (h : ByteSlice)
    (hh : holds ops m k h = true) : m.txPool.backingMap k ≠ none := by
  intro hk
  simp [holds, partitionCache_of_unseen m k hk] at hh

theorem searchFirstTx_cases (ops : TxCacheOps C Tx) (m : Memory C H) (h : ByteSlice)
    (hwf : WellFormed m) (order : List String)
    (hseen : ∀ k ∈ order, m.txPool.backingMap k ≠ none) :
    (∃ k ∈ order, ∃ c tx, partitionCache m k = some c ∧ ops.GetByTxHash c h = (tx, true) ∧
      searchFirstTx ops h m order = (.ok (tx, true), m)) ∨
    ((∀ k ∈ order, holds ops m k h = false) ∧
      searchFirstTx ops h m order = (.ok (none, false), m)) := by
  induction order with
  | nil => exact Or.inr ⟨fun _ hk => absurd hk (List.not_mem_nil _), rfl⟩
  | cons key rest ih =>
    obtain ⟨a, hk⟩ := Option.ne_none_iff_exists'.mp (hseen key (List.mem_cons_self _ _))
    obtain ⟨sh, hs, hlt⟩ := hwf.valid key a hk
    have hc : m.caches[sh.Cache]? = some m.caches[sh.Cache] := List.getElem?_eq_getElem hlt
    have hpc : partitionCache m key = some m.caches[sh.Cache] := by
      rw [partitionCache_of_chain m key a sh hk hs]; exact hc
    have hstep : searchFirstTx ops h m (key :: rest) =
        if (ops.GetByTxHash m.caches[sh.Cache] h).2 then
          (.ok ((ops.GetByTxHash m.caches[sh.Cache] h).1,
            (ops.GetByTxHash m.caches[sh.Cache] h).2), m)
        else searchFirstTx ops h m rest := by
      simp only [searchFirstTx, hk, hs, hc]
    by_cases hfound : (ops.GetByTxHash m.caches[sh.Cache] h).2 = true
    · refine Or.inl ⟨key, List.mem_cons_self _ _, m.caches[sh.Cache],
        (ops.GetByTxHash m.caches[sh.Cache] h).1, hpc, ?_, ?_⟩
      · exact Prod.ext rfl hfound
      · rw [hstep]; simp [hfound]
    · have hrest : searchFirstTx ops h m (key :: rest) = searchFirstTx ops h m rest := by
        rw [hstep]; simp [hfound]
      rcases ih (fun k hkr => hseen k (List.mem_cons_of_mem _ hkr)) with
        ⟨k, hkr, c, tx, h1, h2, h3⟩ | ⟨hnone, h3⟩
      · exact Or.inl ⟨k, List.mem_cons_of_mem _ hkr, c, tx, h1, h2, hrest.trans h3⟩
      · refine Or.inr ⟨?_, hrest.trans h3⟩
        intro k hkm
        rcases List.mem_cons.mp hkm with rfl | hkr
        · rw [holds_of_partitionCache ops m k h _ hpc]
          simpa using hfound
        · exact hnone k hkr

/-- C5: in a well-formed memory, whatever the order in which the range statement visits
the keys of the registry, SearchFirstData returns (it does not panic) and leaves the
memory as it was; it returns (tx, true) for some tx exactly when the partition of at
least one key holds the hash, and then tx is what the cache of some partition gives for
the hash; when no partition holds the hash it returns (nil, false). -/
theorem SearchFirstData_sound_and_complete (ops : TxCacheOps C Tx) (s : Memory C H)
    (h : ByteSlice) (order : List String) (hwf : WellFormed s) (hord : RangeOrder s order) :
    (SearchFirstData ops order h s).2 = s ∧
    ((∃ tx, (SearchFirstData ops order h s).1 = .ok (tx, true)) ↔
      ∃ k, holds ops s k h = true) ∧
    (∀ tx, (SearchFirstData ops order h s).1 = .ok (tx, true) →
      ∃ k c, partitionCache s k = some c ∧ ops.GetByTxHash c h = (tx, true)) ∧
    ((∀ k, holds ops s k h = false) → (SearchFirstData ops order h s).1 = .ok (none, false)) ∧
    ((∃ tx, (SearchFirstData ops order h s).1 = .ok (tx, true)) ∨
      (SearchFirstData ops order h s).1 = .ok (none, false)) := by
  unfold SearchFirstData
  rcases searchFirstTx_cases ops s h hwf order (fun k hk => (hord.2 k).mp hk) with
    ⟨k, -, c, tx, h1, h2, h3⟩ | ⟨hnone, h3⟩
  · have hk : holds ops s k h = true := by
      rw [holds_of_partitionCache ops s k h c h1, h2]
    rw [h3]
    refine ⟨rfl, ⟨fun _ => ⟨k, hk⟩, fun _ => ⟨tx, rfl⟩⟩, ?_, ?_, Or.inl ⟨tx, rfl⟩⟩
    · intro tx2 he
      have e : tx = tx2 := by
        have := Except.ok.inj he
        exact (Prod.mk.inj this).1
      subst e
      exact ⟨k, c, h1, h2⟩
    · intro hall
      rw [hall k] at hk
      exact Bool.noConfusion hk
  · have hall : ∀ k, holds ops s k h = false := by
      intro k
      by_cases hk : k ∈ order
      · exact hnone k hk
      · cases hh : holds ops s k h with
        | false => rfl
        | true => exact absurd ((hord.2 k).mpr (seen_of_holds ops s k h hh)) hk
    rw [h3]
    refine ⟨rfl, ⟨?_, ?_⟩, ?_, fun _ => rfl, Or.inr rfl⟩
    · rintro ⟨tx, he⟩
      have := Except.ok.inj he
      exact Bool.noConfusion (Prod.mk.inj this).2
    · rintro ⟨k, hk⟩
      rw [hall k] at hk
      exact Bool.noConfusion hk
    · intro tx he
      have := Except.ok.inj he
      exact Bool.noConfusion (Prod.mk.inj this).2

theorem rangeOrder_examplePool₁ : RangeOrder examplePool₁ ["1_2"] := by
  refine ⟨by decide, fun k => ?_⟩
  have hmap : examplePool₁.txPool.backingMap =
      Function.update (fun _ => none) "1_2" (some 0) := rfl
  rw [hmap]
  by_cases hk : k = "1_2"
  · subst hk; simp
  · simp [hk]

/-- C5, at the example pool holding 0xAA under "1_2": the search for 0xAA. -/
theorem SearchFirstData_sound_and_complete_witness :
    WellFormed examplePool₁ ∧ RangeOrder examplePool₁ ["1_2"] ∧
    (SearchFirstData specTxCache ["1_2"] [170] examplePool₁).2 = examplePool₁ ∧
    ((∃ tx, (SearchFirstData specTxCache ["1_2"] [170] examplePool₁).1 = .ok (tx, true)) ↔
      ∃ k, holds specTxCache examplePool₁ k [170] = true) ∧
    (SearchFirstData specTxCache ["1_2"] [170] examplePool₁).1 = .ok (some 7, true) ∧
    (SearchFirstData specTxCache ["1_2"] [187] examplePool₁).1 = .ok (none, false) :=
  ⟨wellFormed_examplePool₁, rangeOrder_examplePool₁,
    (SearchFirstData_sound_and_complete specTxCache examplePool₁ [170] ["1_2"]
      wellFormed_examplePool₁ rangeOrder_examplePool₁).1,
    (SearchFirstData_sound_and_complete specTxCache examplePool₁ [170] ["1_2"]
      wellFormed_examplePool₁ rangeOrder_examplePool₁).2.1, rfl, rfl⟩

theorem searchFirstTx_found (ops : TxCacheOps C Tx) (m : Memory C H) (h : ByteSlice)
    (order : List String) (k : String) (hwf : WellFormed m) (hord : RangeOrder m order)
    (hk : holds ops m k h = true) :
    ∃ tx, (searchFirstTx ops h m order).1 = .ok (tx, true) := by
  rcases searchFirstTx_cases ops m h hwf order (fun k2 hk2 => (hord.2 k2).mp hk2) with
    ⟨-, -, -, tx, -, -, h3⟩ | ⟨hnone, -⟩
  · exact ⟨tx, by rw [h3]⟩
  · have hin : k ∈ order := (hord.2 k).mpr (seen_of_holds ops m k h hk)
    rw [hnone k hin] at hk
    exact Bool.noConfusion hk

/-! ## The handle of one partition -/

theorem getTxCache_of_wellFormed (ops : TxCacheOps C Tx) (m : Memory C H) (k : String)
    (hwf : WellFormed m) :
    ∃ a c, getTxCache ops k m = (.ok a, (getOrCreateShard ops k m).2) ∧
      (getOrCreateShard ops k m).2.caches[a]? = some c ∧
      partitionCache (getOrCreateShard ops k m).2 k = some c := by
  obtain ⟨c, hc⟩ := wellFormed_resolved_cache ops m k hwf
  obtain ⟨a, sh, hk, hs, hcc⟩ := partitionCache_eq_some _ k c hc
  rw [getOrCreateShard_maps_key] at hk
  have ha : a = (getOrCreateShard ops k m).1 := (Option.some.inj hk).symm
  subst ha
  refine ⟨sh.Cache, c, ?_, hcc, hc⟩
  simp only [getTxCache, hs]

theorem partitionCache_getOrCreateShard_self (ops : TxCacheOps C Tx) (m : Memory C H)
    (k : String) (hwf : WellFormed m) :
    partitionCache (getOrCreateShard ops k m).2 k =
      match m.txPool.backingMap k with
      | some _ => partitionCache m k
      | none => some (ops.NewTxCache m.txPool.cacheConfig.Shards) := by
  cases hk : m.txPool.backingMap k with
  | some a => exact getOrCreateShard_partitionCache_of_seen ops m k k a hwf hk
  | none =>
    rw [getOrCreateShard_of_unseen ops m k hk]
    simp [partitionCache]

/-- C4: in a well-formed memory, for two distinct keys k1 and k2 and a hash H that the
partition of k2 does not hold (k2 may be unseen), after AddData(H, tx, k1): the call
ShardDataStore(k2) returns the pointer to a cache in which a lookup of H is not found
(new caches holding no hash); and SearchFirstData(H) returns found = true whatever the
order of the range, before as well as after that call of ShardDataStore (the cache
making an inserted hash present). -/
theorem cross_partition_isolation (ops : TxCacheOps C Tx) (s : Memory C H) (k1 k2 : String)
    (hash : ByteSlice) (tx : Tx) (hwf : WellFormed s) (hne : k1 ≠ k2)
    (hnot : holds ops s k2 hash = false) :
    ((∀ n, (ops.GetByTxHash (ops.NewTxCache n) hash).2 = false) →
      ∃ a c,
        (ShardDataStore ops k2 (AddData ops hash (.transaction tx) k1 s).2).1 = .ok a ∧
        (ShardDataStore ops k2 (AddData ops hash (.transaction tx) k1 s).2).2.caches[a]? =
          some c ∧
        (ops.GetByTxHash c hash).2 = false) ∧
    ((∀ c, (ops.GetByTxHash (ops.AddTx c hash (some tx)).1 hash).2 = true) →
      (∀ order, RangeOrder (AddData ops hash (.transaction tx) k1 s).2 order →
        ∃ t, (SearchFirstData ops order hash
          (AddData ops hash (.transaction tx) k1 s).2).1 = .ok (t, true)) ∧
      (∀ order,
        RangeOrder (ShardDataStore ops k2 (AddData ops hash (.transaction tx) k1 s).2).2 order →
        ∃ t, (SearchFirstData ops order hash
          (ShardDataStore ops k2 (AddData ops hash (.transaction tx) k1 s).2).2).1 =
            .ok (t, true))) := by
  rw [AddData_transaction]
  have hwf1 : WellFormed (addTx ops hash (some tx) k1 s).2 :=
    wellFormed_addTx ops s k1 hash (some tx) hwf
  have hwf2 := wellFormed_getOrCreateShard ops (addTx ops hash (some tx) k1 s).2 k2 hwf1
  obtain ⟨a, c, hget, hca, hpc⟩ := getTxCache_of_wellFormed ops _ k2 hwf1
  have hk2 : partitionCache (addTx ops hash (some tx) k1 s).2 k2 = partitionCache s k2 :=
    addTx_partitionCache_other ops s k1 k2 hash (some tx) hwf (Ne.symm hne)
  constructor
  · intro hnew
    refine ⟨a, c, by simp only [ShardDataStore, hget], by simp only [ShardDataStore, hget]; exact hca, ?_⟩
    rw [partitionCache_getOrCreateShard_self ops _ k2 hwf1] at hpc
    cases hm : (addTx ops hash (some tx) k1 s).2.txPool.backingMap k2 with
    | none =>
      rw [hm] at hpc
      rw [← Option.some.inj hpc]
      exact hnew _
    | some b =>
      rw [hm] at hpc
      simp only at hpc
      rw [hk2] at hpc
      rw [← holds_of_partitionCache ops s k2 hash c hpc]
      exact hnot
  · intro hins
    obtain ⟨c1, hc1⟩ := wellFormed_resolved_cache ops s k1 hwf
    have hh1 : holds ops (addTx ops hash (some tx) k1 s).2 k1 hash = true := by
      rw [holds_of_partitionCache ops _ k1 hash _
        (addTx_partitionCache_self ops s k1 hash (some tx) c1 hc1)]
      exact hins c1
    constructor
    · intro order hord
      exact searchFirstTx_found ops _ hash order k1 hwf1 hord hh1
    · intro order hord
      have hmem : (ShardDataStore ops k2 (addTx ops hash (some tx) k1 s).2).2 =
          (getOrCreateShard ops k2 (addTx ops hash (some tx) k1 s).2).2 := by
        simp only [ShardDataStore, hget]
      rw [hmem] at hord ⊢
      refine searchFirstTx_found ops _ hash order k1 hwf2 hord ?_
      simp only [holds]
      rw [getOrCreateShard_partitionCache_other ops _ k2 k1 hwf1 hne]
      exact hh1

theorem rangeOrder_examplePool₂ : RangeOrder examplePool₂ ["0_1", "1_2"] := by
  refine ⟨by decide, fun k => ?_⟩
  have hmap : examplePool₂.txPool.backingMap =
      Function.update (Function.update (fun _ => none) "1_2" (some 0)) "0_1" (some 1) := rfl
  rw [hmap]
  by_cases h1 : k = "0_1"
  · subst h1; simp
  · by_cases h2 : k = "1_2"
    · subst h2; simp
    · simp [h1, h2]

/-- C4, at the example pool holding 0xAA under "1_2": 0xBB is added under "0_1" and looked
up through the handle of "0_2" and by a search. -/
theorem cross_partition_isolation_witness :
    WellFormed examplePool₁ ∧ "0_1" ≠ "0_2" ∧
    holds specTxCache examplePool₁ "0_2" [187] = false ∧
    (∃ a c, (ShardDataStore specTxCache "0_2" examplePool₂).1 = .ok a ∧
      (ShardDataStore specTxCache "0_2" examplePool₂).2.caches[a]? = some c ∧
      (specTxCache.GetByTxHash c [187]).2 = false) ∧
    (∃ t, (SearchFirstData specTxCache ["0_1", "1_2"] [187] examplePool₂).1 = .ok (t, true)) := by
  have hne : "0_1" ≠ "0_2" := by decide
  have hnot : holds specTxCache examplePool₁ "0_2" [187] = false := by decide
  have h := cross_partition_isolation specTxCache examplePool₁ "0_1" "0_2" [187] 8
    wellFormed_examplePool₁ hne hnot
  exact ⟨wellFormed_examplePool₁, hne, hnot,
    h.1 (fun n => specTxCache_new_holds_nothing n _),
    (h.2 (fun c => specTxCache_present c _ _)).1 _ rangeOrder_examplePool₂⟩

/-! ## The operations that refuse and the operations that do nothing -/

/-- C6: RemoveDataFromAllShards, MoveData and CreateShardStore panic on every call, in
every memory and for all arguments, with their own message; none returns normally, and
the memory at the panic is the memory before the call. -/
theorem fail_fast_stubs_panic (s : Memory C H) (key : ByteSlice) (source dest : String)
    (keys : List ByteSlice) (cacheID : String) :
    RemoveDataFromAllShards key s =
      (.error "shardedTxPool.RemoveDataFromAllShards is not implemented", s) ∧
    MoveData source dest keys s = (.error "shardedTxPool.MoveData is not implemented", s) ∧
    CreateShardStore cacheID s =
      (.error
        "shardedTxPool.CreateShardStore() is not implemented (not needed; shard creation is managed internally)",
        s) ∧
    (RemoveDataFromAllShards key s).1 ≠ .ok () ∧
    (MoveData source dest keys s).1 ≠ .ok () ∧
    (CreateShardStore cacheID s).1 ≠ .ok () :=
  ⟨rfl, rfl, rfl, fun e => Except.noConfusion e, fun e => Except.noConfusion e,
    fun e => Except.noConfusion e⟩

/-- C7, refuted as stated: on the example pool holding 0xAA under "1_2", RemoveData of
that hash under that key does not return normally: it panics. -/
theorem RemoveData_is_not_a_no_op :
    (RemoveData [170] "1_2" examplePool₁).1 =
      .error "shardedTxPool.RemoveData is not implemented" ∧
    ¬ ((RemoveData [170] "1_2" examplePool₁).1 = .ok ()) :=
  ⟨rfl, fun e => Except.noConfusion e⟩

/-- C7, amended: RemoveData panics on every call, in every memory and for every hash and
key, with the message "shardedTxPool.RemoveData is not implemented"; it never returns
normally, and the memory at the panic is the memory before the call (partition contents
and callback set unchanged). The silent no-op is the unexported removeTx, which returns
normally and leaves the memory unchanged. -/
theorem RemoveData_panics (s : Memory C H) (key : ByteSlice) (cacheID : String) :
    RemoveData key cacheID s = (.error "shardedTxPool.RemoveData is not implemented", s) ∧
    (RemoveData key cacheID s).1 ≠ .ok () ∧
    removeTx key cacheID s = (.ok (), s) :=
  ⟨rfl, fun e => Except.noConfusion e, rfl⟩

/-- C8: RemoveSetOfDataFromPool, MergeShardStores, Clear and ClearShardStore return
normally and leave the memory exactly as it was, in every memory and for all arguments:
same registry, same shards, same cache contents, same callback set. As the memory is
the same, no partition is created for a cacheID that was unseen. -/
theorem no_op_operations_leave_state (s : Memory C H) (keys : List ByteSlice)
    (cacheID source dest : String) :
    RemoveSetOfDataFromPool keys cacheID s = (.ok (), s) ∧
    MergeShardStores source dest s = (.ok (), s) ∧
    Clear s = (.ok (), s) ∧
    ClearShardStore cacheID s = (.ok (), s) ∧
    (ClearShardStore cacheID s).2.txPool.backingMap cacheID = s.txPool.backingMap cacheID ∧
    (RemoveSetOfDataFromPool keys cacheID s).2.txPool.backingMap cacheID =
      s.txPool.backingMap cacheID :=
  ⟨rfl, rfl, rfl, rfl, rfl, rfl⟩

/-! ## Registering a handler -/

/-- C9, the code at the failing input: on a newly constructed pool, RegisterHandler of
the non-nil handler "f" returns normally and does not append it to the callback set,
which stays empty; the AddData that follows newly inserts the hash 0xAA under "1_2" and
starts no goroutine, so f is never called, although the documentation of
RegisterHandler says that it registers a handler to be called when a transaction is
added. -/
theorem RegisterHandler_does_not_append :
    (RegisterHandler (some "f") exampleNewPool).1 = .ok () ∧
    (RegisterHandler (some "f") exampleNewPool).2.txPool.onAddCallbacks = [] ∧
    ¬ ((RegisterHandler (some "f") exampleNewPool).2.txPool.onAddCallbacks =
        exampleNewPool.txPool.onAddCallbacks ++ ["f"]) ∧
    holds specTxCache (RegisterHandler (some "f") exampleNewPool).2 "1_2" [170] = false ∧
    (AddData specTxCache [170] (.transaction 7) "1_2"
      (RegisterHandler (some "f") exampleNewPool).2).1 = .ok () ∧
    holds specTxCache (AddData specTxCache [170] (.transaction 7) "1_2"
      (RegisterHandler (some "f") exampleNewPool).2).2 "1_2" [170] = true ∧
    (AddData specTxCache [170] (.transaction 7) "1_2"
      (RegisterHandler (some "f") exampleNewPool).2).2.goroutines = [] := by
  refine ⟨rfl, rfl, by decide, by decide, rfl, by decide, rfl⟩

/-- What the code of RegisterHandler does in general: it returns normally and leaves the
memory, and so the callback set, exactly as it was, for every handler, nil or not: the
handler is not appended. An AddData(h, tx, k) that follows and newly inserts the hash
into the partition of k starts one goroutine for each handler that was in the callback
set before RegisterHandler was called, and no other. -/
theorem RegisterHandler_leaves_callbacks (ops : TxCacheOps C Tx) (s : Memory C H)
    (f : Option H) (k : String) (h : ByteSlice) (tx : Tx) (c : C)
    (hc : partitionCache (getOrCreateShard ops k s).2 k = some c)
    (hadd : (ops.AddTx c h (some tx)).2.2 = true) :
    RegisterHandler f s = (.ok (), s) ∧
    (RegisterHandler f s).2.txPool.onAddCallbacks = s.txPool.onAddCallbacks ∧
    (AddData ops h (.transaction tx) k (RegisterHandler f s).2).1 = .ok () ∧
    (AddData ops h (.transaction tx) k (RegisterHandler f s).2).2.goroutines =
      s.goroutines ++ s.txPool.onAddCallbacks.map (fun handler => (handler, h)) := by
  obtain ⟨sh, -, -, heq⟩ := addTx_of_cache ops s k h (some tx) c hc
  refine ⟨rfl, rfl, ?_, ?_⟩
  · show (addTx ops h (some tx) k s).1 = .ok ()
    rw [heq]
  · show (addTx ops h (some tx) k s).2.goroutines = _
    rw [heq]
    simp [hadd]

/-- The same at a pool given the handlers "f" and "g" directly: after RegisterHandler of
"e", the first add of 0xAA under "1_2" starts "f" and "g" and not "e". -/
theorem RegisterHandler_leaves_callbacks_witness :
    partitionCache (getOrCreateShard specTxCache "1_2" examplePool).2 "1_2" = some [] ∧
    (specTxCache.AddTx ([] : List (ByteSlice × TransactionHandler Nat)) [170] (some 7)).2.2 =
      true ∧
    (RegisterHandler (some "e") examplePool).2.txPool.onAddCallbacks = ["f", "g"] ∧
    (AddData specTxCache [170] (.transaction 7) "1_2"
      (RegisterHandler (some "e") examplePool).2).2.goroutines =
      [("f", [170]), ("g", [170])] := by
  have hc : partitionCache (getOrCreateShard specTxCache "1_2" examplePool).2 "1_2" =
      some [] := by decide
  have hadd : (specTxCache.AddTx ([] : List (ByteSlice × TransactionHandler Nat)) [170]
      (some 7)).2.2 = true := by decide
  have h := RegisterHandler_leaves_callbacks specTxCache examplePool (some "e") "1_2" [170] 7
    [] hc hadd
  exact ⟨hc, hadd, h.2.1, h.2.2.2⟩

/-! ## The registry only grows -/

theorem getTxCache_memory (ops : TxCacheOps C Tx) (m : Memory C H) (k : String) :
    (getTxCache ops k m).2 = (getOrCreateShard ops k m).2 := by
  unfold getTxCache
  dsimp only
  split <;> rfl

theorem searchFirstTx_memory (ops : TxCacheOps C Tx) (m : Memory C H) (h : ByteSlice)
    (order : List String) : (searchFirstTx ops h m order).2 = m := by
  induction order with
  | nil => rfl
  | cons key rest ih =>
    unfold searchFirstTx
    split
    · rfl
    · split
      · rfl
      · split
        · rfl
        · dsimp only
          split
          · rfl
          · exact ih

theorem exec_keeps_key (ops : TxCacheOps C Tx) (call : Call Tx H) (m : Memory C H)
    (k : String) (a : Addr) (hk : m.txPool.backingMap k = some a) :
    (call.exec ops m).2.txPool.backingMap k = some a := by
  cases call with
  | ShardDataStore cacheID =>
    show (getTxCache ops cacheID m).2.txPool.backingMap k = some a
    rw [getTxCache_memory]; exact getOrCreateShard_keeps_key ops m cacheID k a hk
  | AddData key value cacheID =>
    cases value with
    | transaction tx =>
      show (addTx ops key (some tx) cacheID m).2.txPool.backingMap k = some a
      rw [(addTx_frame ops m cacheID key (some tx)).1]
      exact getOrCreateShard_keeps_key ops m cacheID k a hk
    | nil => exact hk
    | other dynamicType missingMethod => exact hk
  | SearchFirstData order key =>
    show (searchFirstTx ops key m order).2.txPool.backingMap k = some a
    rw [searchFirstTx_memory]; exact hk
  | _ => exact hk

theorem exec_keeps_shard (ops : TxCacheOps C Tx) (call : Call Tx H) (m : Memory C H)
    (a : Addr) (sh : txPoolShard) (ha : m.shards[a]? = some sh) :
    (call.exec ops m).2.shards[a]? = some sh := by
  cases call with
  | ShardDataStore cacheID =>
    show (getTxCache ops cacheID m).2.shards[a]? = some sh
    rw [getTxCache_memory]; exact getOrCreateShard_keeps_shard ops m cacheID a sh ha
  | AddData key value cacheID =>
    cases value with
    | transaction tx =>
      show (addTx ops key (some tx) cacheID m).2.shards[a]? = some sh
      rw [(addTx_frame ops m cacheID key (some tx)).2.1]
      exact getOrCreateShard_keeps_shard ops m cacheID a sh ha
    | nil => exact ha
    | other dynamicType missingMethod => exact ha
  | SearchFirstData order key =>
    show (searchFirstTx ops key m order).2.shards[a]? = some sh
    rw [searchFirstTx_memory]; exact ha
  | _ => exact ha

theorem run_keeps (ops : TxCacheOps C Tx) (calls : List (Call Tx H)) (m : Memory C H)
    (k : String) (a : Addr) (sh : txPoolShard) (hk : m.txPool.backingMap k = some a)
    (ha : m.shards[a]? = some sh) :
    (run ops calls m).txPool.backingMap k = some a ∧ (run ops calls m).shards[a]? = some sh := by
  induction calls generalizing m with
  | nil => exact ⟨hk, ha⟩
  | cons call rest ih =>
    exact ih (call.exec ops m).2 (exec_keeps_key ops call m k a hk)
      (exec_keeps_shard ops call m a sh ha)

theorem wellFormed_exec (ops : TxCacheOps C Tx) (call : Call Tx H) (m : Memory C H)
    (hwf : WellFormed m) : WellFormed (call.exec ops m).2 := by
  cases call with
  | ShardDataStore cacheID =>
    show WellFormed (getTxCache ops cacheID m).2
    rw [getTxCache_memory]; exact wellFormed_getOrCreateShard ops m cacheID hwf
  | AddData key value cacheID =>
    cases value with
    | transaction tx => exact wellFormed_addTx ops m cacheID key (some tx) hwf
    | nil => exact hwf
    | other dynamicType missingMethod => exact hwf
  | SearchFirstData order key =>
    show WellFormed (searchFirstTx ops key m order).2
    rw [searchFirstTx_memory]; exact hwf
  | _ => exact hwf

theorem wellFormed_run (ops : TxCacheOps C Tx) (calls : List (Call Tx H)) (m : Memory C H)
    (hwf : WellFormed m) : WellFormed (run ops calls m) := by
  induction calls generalizing m with
  | nil => exact hwf
  | cons call rest ih => exact ih (call.exec ops m).2 (wellFormed_exec ops call m hwf)

theorem wellFormed_of_reachable (ops : TxCacheOps C Tx) (m : Memory C H)
    (hr : Reachable ops m) : WellFormed m := by
  obtain ⟨config, calls, rfl⟩ := hr
  exact wellFormed_run ops calls _ (wellFormed_new config)

/-- C10: let the key k be mapped to the shard pointer a, pointing to the shard object sh.
After any one call of the facade (ShardDataStore, AddData, SearchFirstData,
RemoveSetOfDataFromPool, MergeShardStores, Clear, ClearShardStore, RegisterHandler, and
the calls that panic as well), k is still mapped to the same pointer a and a still points
to the same object sh, with its CacheID and cache pointer. Hence, in a state reached
from NewShardedTxPool by any calls, a key that is mapped stays mapped to the same
partition through any further calls. -/
theorem registry_never_shrinks (ops : TxCacheOps C Tx) (s : Memory C H) (k : String)
    (a : Addr) (sh : txPoolShard) (hk : s.txPool.backingMap k = some a)
    (ha : s.shards[a]? = some sh) :
    (∀ call : Call Tx H,
      (call.exec ops s).2.txPool.backingMap k = some a ∧
      (call.exec ops s).2.shards[a]? = some sh) ∧
    (∀ cacheID, (ShardDataStore ops cacheID s).2.txPool.backingMap k = some a ∧
      (ShardDataStore ops cacheID s).2.shards[a]? = some sh) ∧
    (∀ key value cacheID, (AddData ops key value cacheID s).2.txPool.backingMap k = some a ∧
      (AddData ops key value cacheID s).2.shards[a]? = some sh) ∧
    (∀ order key, (SearchFirstData ops order key s).2.txPool.backingMap k = some a ∧
      (SearchFirstData ops order key s).2.shards[a]? = some sh) ∧
    (∀ calls : List (Call Tx H),
      (run ops calls s).txPool.backingMap k = some a ∧
      (run ops calls s).shards[a]? = some sh) ∧
    (∀ (config : CacheConfig) (before later : List (Call Tx H)),
      s = run ops before (NewShardedTxPool config) →
      (run ops (before ++ later) (NewShardedTxPool config)).txPool.backingMap k = some a ∧
      (run ops (before ++ later) (NewShardedTxPool config)).shards[a]? = some sh) := by
  have one : ∀ call : Call Tx H,
      (call.exec ops s).2.txPool.backingMap k = some a ∧
      (call.exec ops s).2.shards[a]? = some sh :=
    fun call => ⟨exec_keeps_key ops call s k a hk, exec_keeps_shard ops call s a sh ha⟩
  refine ⟨one, fun cacheID => one (.ShardDataStore cacheID),
    fun key value cacheID => one (.AddData key value cacheID),
    fun order key => one (.SearchFirstData order key),
    fun calls => run_keeps ops calls s k a sh hk ha, ?_⟩
  intro config before later hs
  have happ : run ops (before ++ later) (NewShardedTxPool config) =
      run ops later (run ops before (NewShardedTxPool config)) := by
    simp [run, List.foldl_append]
  rw [happ, ← hs]
  exact run_keeps ops later s k a sh hk ha

/-- C10, on the pool reached from a new pool by adding 0xAA under "1_2": the key "1_2" is
mapped to the shard at address 0 and stays so through a Clear, an add under another key,
a merge and a removal that panics. -/
theorem registry_never_shrinks_witness :
    (run specTxCache [Call.AddData [170] (.transaction 7) "1_2"]
      exampleNewPool).txPool.backingMap "1_2" = some 0 ∧
    (run specTxCache [Call.AddData [170] (.transaction 7) "1_2"]
      exampleNewPool).shards[0]? = some { CacheID := "1_2", Cache := 0 } ∧
    (run specTxCache
      ([Call.AddData [170] (.transaction 7) "1_2"] ++
        [Call.Clear, Call.AddData [187] (.transaction 8) "0_1",
          Call.MergeShardStores "1_2" "0_1", Call.RemoveData [170] "1_2"])
      exampleNewPool).txPool.backingMap "1_2" = some 0 ∧
    (run specTxCache
      ([Call.AddData [170] (.transaction 7) "1_2"] ++
        [Call.Clear, Call.AddData [187] (.transaction 8) "0_1",
          Call.MergeShardStores "1_2" "0_1", Call.RemoveData [170] "1_2"])
      exampleNewPool).shards[0]? = some { CacheID := "1_2", Cache := 0 } := by
  have hk : (run specTxCache [Call.AddData [170] (.transaction 7) "1_2"]
      exampleNewPool).txPool.backingMap "1_2" = some 0 := by decide
  have ha : (run specTxCache [Call.AddData [170] (.transaction 7) "1_2"]
      exampleNewPool).shards[0]? = some { CacheID := "1_2", Cache := 0 } := by decide
  have h := (registry_never_shrinks specTxCache
    (run specTxCache [Call.AddData [170] (.transaction 7) "1_2"] exampleNewPool)
    "1_2" 0 { CacheID := "1_2", Cache := 0 } hk ha).2.2.2.2.2
    { Size := 1000, Shards := 16 } [Call.AddData [170] (.transaction 7) "1_2"]
    [Call.Clear, Call.AddData [187] (.transaction 8) "0_1",
      Call.MergeShardStores "1_2" "0_1", Call.RemoveData [170] "1_2"] rfl
  exact ⟨hk, ha, h.1, h.2⟩

/-! ## One partition per key -/

theorem exec_shape (ops : TxCacheOps C Tx) (call : Call Tx H) (m : Memory C H) :
    (call.exec ops m).2 = m ∨
    ∃ k, (call.exec ops m).2.txPool = (getOrCreateShard ops k m).2.txPool ∧
      (call.exec ops m).2.shards = (getOrCreateShard ops k m).2.shards ∧
      (call.exec ops m).2.caches.length = (getOrCreateShard ops k m).2.caches.length := by
  cases call with
  | ShardDataStore cacheID =>
    refine Or.inr ⟨cacheID, ?_⟩
    show (getTxCache ops cacheID m).2.txPool = _ ∧ (getTxCache ops cacheID m).2.shards = _ ∧
      (getTxCache ops cacheID m).2.caches.length = _
    rw [getTxCache_memory]; exact ⟨rfl, rfl, rfl⟩
  | AddData key value cacheID =>
    cases value with
    | transaction tx => exact Or.inr ⟨cacheID, addTx_frame ops m cacheID key (some tx)⟩
    | nil => exact Or.inl rfl
    | other dynamicType missingMethod => exact Or.inl rfl
  | SearchFirstData order key => exact Or.inl (searchFirstTx_memory ops m key order)
  | _ => exact Or.inl rfl

theorem keyed_getOrCreateShard (ops : TxCacheOps C Tx) (m : Memory C H) (k : String)
    (hwf : WellFormed m) (hkd : Keyed m) : Keyed (getOrCreateShard ops k m).2 := by
  cases hk : m.txPool.backingMap k with
  | some a => rw [getOrCreateShard_of_seen ops m k a hk]; exact hkd
  | none =>
    rw [getOrCreateShard_of_unseen ops m k hk]
    intro k2 a sh h2 hs
    by_cases hne : k2 = k
    · subst hne
      simp only [Function.update_same] at h2
      have ha : a = m.shards.length := (Option.some.inj h2).symm
      subst ha
      have hnew : (m.shards ++ [({ CacheID := k2, Cache := m.caches.length } : txPoolShard)])[
          m.shards.length]? = some { CacheID := k2, Cache := m.caches.length } := by simp
      have e : sh = { CacheID := k2, Cache := m.caches.length } :=
        Option.some.inj (hs.symm.trans hnew)
      rw [e]
    · simp only [Function.update_noteq hne] at h2
      obtain ⟨sh0, hs0, -⟩ := hwf.valid k2 a h2
      have hlt := lt_length_of_getElem?_eq_some _ _ _ hs0
      have hs1 : m.shards[a]? = some sh := by
        have : (m.shards ++ [({ CacheID := k, Cache := m.caches.length } : txPoolShard)])[a]? =
            m.shards[a]? := List.getElem?_append_left hlt
        rw [← this]; exact hs
      exact hkd k2 a sh h2 hs1

theorem registered_getOrCreateShard (ops : TxCacheOps C Tx) (m : Memory C H) (k : String)
    (hrg : Registered m) : Registered (getOrCreateShard ops k m).2 := by
  cases hk : m.txPool.backingMap k with
  | some a => rw [getOrCreateShard_of_seen ops m k a hk]; exact hrg
  | none =>
    rw [getOrCreateShard_of_unseen ops m k hk]
    intro a sh hs
    have hs1 : (m.shards ++ [({ CacheID := k, Cache := m.caches.length } : txPoolShard)])[a]? =
        some sh := hs
    show Function.update m.txPool.backingMap k (some m.shards.length) sh.CacheID = some a
    by_cases hlt : a < m.shards.length
    · rw [List.getElem?_append_left hlt] at hs1
      have hreg := hrg a sh hs1
      have hne : sh.CacheID ≠ k := by
        intro e
        rw [e, hk] at hreg
        exact Option.noConfusion hreg
      rw [Function.update_noteq hne]; exact hreg
    · have hge : m.shards.length ≤ a := Nat.le_of_not_lt hlt
      rw [List.getElem?_append_right hge] at hs1
      have h0 : a - m.shards.length = 0 := by
        by_contra hn
        obtain ⟨n, hn1⟩ := Nat.exists_eq_succ_of_ne_zero hn
        rw [hn1] at hs1
        simp at hs1
      rw [h0] at hs1
      have e : sh = { CacheID := k, Cache := m.caches.length } := by
        simpa using hs1.symm
      have ha : a = m.shards.length := by
        have := Nat.sub_eq_zero_iff_le.mp h0
        exact Nat.le_antisymm this hge
      rw [e, ha]
      simp

theorem keyed_exec (ops : TxCacheOps C Tx) (call : Call Tx H) (m : Memory C H)
    (hwf : WellFormed m) (hkd : Keyed m) : Keyed (call.exec ops m).2 := by
  rcases exec_shape ops call m with he | ⟨k, hp, hs, -⟩
  · rw [he]; exact hkd
  · intro k2 a sh h2 hsh
    rw [hp] at h2
    rw [hs] at hsh
    exact keyed_getOrCreateShard ops m k hwf hkd k2 a sh h2 hsh

theorem registered_exec (ops : TxCacheOps C Tx) (call : Call Tx H) (m : Memory C H)
    (hrg : Registered m) : Registered (call.exec ops m).2 := by
  rcases exec_shape ops call m with he | ⟨k, hp, hs, -⟩
  · rw [he]; exact hrg
  · intro a sh hsh
    rw [hs] at hsh
    rw [hp]
    exact registered_getOrCreateShard ops m k hrg a sh hsh

theorem invariants_run (ops : TxCacheOps C Tx) (calls : List (Call Tx H)) (m : Memory C H)
    (hwf : WellFormed m) (hkd : Keyed m) (hrg : Registered m) :
    WellFormed (run ops calls m) ∧ Keyed (run ops calls m) ∧ Registered (run ops calls m) := by
  induction calls generalizing m with
  | nil => exact ⟨hwf, hkd, hrg⟩
  | cons call rest ih =>
    exact ih (call.exec ops m).2 (wellFormed_exec ops call m hwf)
      (keyed_exec ops call m hwf hkd) (registered_exec ops call m hrg)

theorem invariants_new (config : CacheConfig) :
    Keyed (NewShardedTxPool config : Memory C H) ∧
    Registered (NewShardedTxPool config : Memory C H) :=
  ⟨fun _ _ _ hk => Option.noConfusion hk, fun a sh hs => by simp [NewShardedTxPool] at hs⟩

theorem invariants_of_reachable (ops : TxCacheOps C Tx) (config : CacheConfig)
    (calls : List (Call Tx H)) :
    WellFormed (run ops calls (NewShardedTxPool config)) ∧
    Keyed (run ops calls (NewShardedTxPool config)) ∧
    Registered (run ops calls (NewShardedTxPool config)) :=
  invariants_run ops calls _ (wellFormed_new config) (invariants_new config).1
    (invariants_new config).2

/-- C11: on a key that is in the map, getOrCreateShard returns the shard pointer mapped to
the key and leaves the memory exactly as it was. From any memory, a second call for the
same key returns the pointer the first call returned and changes nothing. So at most
one partition exists per key: in every memory reached from a new pool by calls of the
facade, two shard objects with the same CacheID are one object. -/
theorem getOrCreateShard_idempotent (ops : TxCacheOps C Tx) (s : Memory C H) (k : String) :
    (∀ a, s.txPool.backingMap k = some a → getOrCreateShard ops k s = (a, s)) ∧
    getOrCreateShard ops k (getOrCreateShard ops k s).2 =
      ((getOrCreateShard ops k s).1, (getOrCreateShard ops k s).2) ∧
    (∀ (config : CacheConfig) (calls : List (Call Tx H)) (a₁ a₂ : Addr) (sh₁ sh₂ : txPoolShard),
      (run ops calls (NewShardedTxPool config)).shards[a₁]? = some sh₁ →
      (run ops calls (NewShardedTxPool config)).shards[a₂]? = some sh₂ →
      sh₁.CacheID = sh₂.CacheID → a₁ = a₂) := by
  refine ⟨fun a hk => getOrCreateShard_of_seen ops s k a hk,
    getOrCreateShard_of_seen ops _ k _ (getOrCreateShard_maps_key ops s k), ?_⟩
  intro config calls a₁ a₂ sh₁ sh₂ h1 h2 he
  have hrg := (invariants_of_reachable ops config calls).2.2
  have r1 := hrg a₁ sh₁ h1
  have r2 := hrg a₂ sh₂ h2
  rw [he] at r1
  exact Option.some.inj (r1.symm.trans r2)

/-- C11, at the example pool holding 0xAA under "1_2", for the seen key "1_2" and, as the
pair of calls, for the unseen key "0_1". -/
theorem getOrCreateShard_idempotent_witness :
    examplePool₁.txPool.backingMap "1_2" = some 0 ∧
    getOrCreateShard specTxCache "1_2" examplePool₁ = (0, examplePool₁) ∧
    (getOrCreateShard specTxCache "0_1" (getOrCreateShard specTxCache "0_1" examplePool₁).2).1 =
      (getOrCreateShard specTxCache "0_1" examplePool₁).1 ∧
    (getOrCreateShard specTxCache "0_1" examplePool₁).1 = 1 := by
  have hk : examplePool₁.txPool.backingMap "1_2" = some 0 := by decide
  have h := getOrCreateShard_idempotent specTxCache examplePool₁ "1_2"
  have h2 := (getOrCreateShard_idempotent specTxCache examplePool₁ "0_1").2.1
  exact ⟨hk, h.1 0 hk, by rw [h2], by decide⟩

/-! ## The type assertion of AddData -/

theorem AddData_of_not_transaction (ops : TxCacheOps C Tx) (s : Memory C H) (key : ByteSlice)
    (value : Value Tx) (cacheID : String) (hv : value.isTransactionHandler = false) :
    ∃ msg, AddData ops key value cacheID s = (.error msg, s) := by
  cases value with
  | transaction tx => exact Bool.noConfusion hv
  | nil => exact ⟨_, rfl⟩
  | other dynamicType missingMethod => exact ⟨_, rfl⟩

theorem addTx_returns_of_wellFormed (ops : TxCacheOps C Tx) (s : Memory C H) (key : ByteSlice)
    (tx : TransactionHandler Tx) (cacheID : String) (hwf : WellFormed s) :
    (addTx ops key tx cacheID s).1 = .ok () := by
  obtain ⟨c, hc⟩ := wellFormed_resolved_cache ops s cacheID hwf
  obtain ⟨sh, -, -, heq⟩ := addTx_of_cache ops s cacheID key tx c hc
  rw [heq]

/-- C12: in a well-formed memory, AddData ends in a panic exactly when the value is not a
TransactionHandler (the nil interface included); the memory at that panic is the memory
before the call, so no partition is created for cacheID; for every value that is a
TransactionHandler AddData returns normally. -/
theorem AddData_faults_exactly_on_wrong_type (ops : TxCacheOps C Tx) (s : Memory C H)
    (key : ByteSlice) (value : Value Tx) (cacheID : String) (hwf : WellFormed s) :
    ((AddData ops key value cacheID s).1 ≠ .ok () ↔ value.isTransactionHandler = false) ∧
    (value.isTransactionHandler = false →
      (∃ msg, AddData ops key value cacheID s = (.error msg, s)) ∧
      (AddData ops key value cacheID s).2.txPool.backingMap cacheID =
        s.txPool.backingMap cacheID) ∧
    (value.isTransactionHandler = true → (AddData ops key value cacheID s).1 = .ok ()) ∧
    AddData ops key .nil cacheID s =
      (.error "interface conversion: interface is nil, not data.TransactionHandler", s) := by
  have hbad : value.isTransactionHandler = false →
      (∃ msg, AddData ops key value cacheID s = (.error msg, s)) ∧
      (AddData ops key value cacheID s).2.txPool.backingMap cacheID =
        s.txPool.backingMap cacheID := by
    intro hv
    obtain ⟨msg, hm⟩ := AddData_of_not_transaction ops s key value cacheID hv
    exact ⟨⟨msg, hm⟩, by rw [hm]⟩
  have hgood : value.isTransactionHandler = true →
      (AddData ops key value cacheID s).1 = .ok () := by
    intro hv
    cases value with
    | transaction tx => exact addTx_returns_of_wellFormed ops s key (some tx) cacheID hwf
    | nil => exact Bool.noConfusion hv
    | other dynamicType missingMethod => exact Bool.noConfusion hv
  refine ⟨⟨?_, ?_⟩, hbad, hgood, rfl⟩
  · intro hne
    cases hv : value.isTransactionHandler with
    | false => rfl
    | true => exact absurd (hgood hv) hne
  · intro hv he
    obtain ⟨⟨msg, hm⟩, -⟩ := hbad hv
    rw [hm] at he
    exact Except.noConfusion he

/-- C12, at the example pool holding 0xAA under "1_2": a value of another type and the
nil value panic and create no partition for "0_1"; a transaction is accepted. -/
theorem AddData_faults_exactly_on_wrong_type_witness :
    WellFormed examplePool₁ ∧
    (AddData specTxCache [187] (.other "string" "GetData") "0_1" examplePool₁).1 ≠ .ok () ∧
    (AddData specTxCache [187] (.other "string" "GetData") "0_1" examplePool₁).2.txPool.backingMap "0_1" =
      none ∧
    (AddData specTxCache [187] (.transaction 8) "0_1" examplePool₁).1 = .ok () := by
  have h := AddData_faults_exactly_on_wrong_type specTxCache examplePool₁ [187] (.other "string" "GetData")
    "0_1" wellFormed_examplePool₁
  have h2 := AddData_faults_exactly_on_wrong_type specTxCache examplePool₁ [187]
    (.transaction 8) "0_1" wellFormed_examplePool₁
  refine ⟨wellFormed_examplePool₁, h.1.mpr rfl, ?_, h2.2.2.1 rfl⟩
  rw [(h.2.1 rfl).2]
  decide

/-! ## The callback set stays empty -/

theorem exec_callbacks (ops : TxCacheOps C Tx) (call : Call Tx H) (m : Memory C H) :
    (call.exec ops m).2.txPool.onAddCallbacks = m.txPool.onAddCallbacks := by
  rcases exec_shape ops call m with he | ⟨k, hp, -, -⟩
  · rw [he]
  · rw [hp]; exact (getOrCreateShard_frame ops m k).2.1

theorem addTx_goroutines_of_no_callbacks (ops : TxCacheOps C Tx) (m : Memory C H)
    (k : String) (h : ByteSlice) (tx : TransactionHandler Tx)
    (hcb : m.txPool.onAddCallbacks = []) :
    (addTx ops h tx k m).2.goroutines = m.goroutines := by
  obtain ⟨hg, hcb1, -⟩ := getOrCreateShard_frame ops m k
  unfold addTx
  dsimp only
  split
  · exact hg
  · split
    · exact hg
    · split
      · simp [onAdded, hcb1, hcb, hg]
      · exact hg

theorem AddData_goroutines_of_no_callbacks (ops : TxCacheOps C Tx) (m : Memory C H)
    (key : ByteSlice) (value : Value Tx) (cacheID : String)
    (hcb : m.txPool.onAddCallbacks = []) :
    (AddData ops key value cacheID m).2.goroutines = m.goroutines := by
  cases value with
  | transaction tx => exact addTx_goroutines_of_no_callbacks ops m cacheID key (some tx) hcb
  | nil => rfl
  | other dynamicType missingMethod => rfl

theorem exec_goroutines_of_no_callbacks (ops : TxCacheOps C Tx) (call : Call Tx H)
    (m : Memory C H) (hcb : m.txPool.onAddCallbacks = []) :
    (call.exec ops m).2.goroutines = m.goroutines := by
  cases call with
  | ShardDataStore cacheID =>
    show (getTxCache ops cacheID m).2.goroutines = _
    rw [getTxCache_memory]; exact (getOrCreateShard_frame ops m cacheID).1
  | AddData key value cacheID =>
    exact AddData_goroutines_of_no_callbacks ops m key value cacheID hcb
  | SearchFirstData order key =>
    show (searchFirstTx ops key m order).2.goroutines = _
    rw [searchFirstTx_memory]
  | _ => rfl

theorem run_no_callbacks (ops : TxCacheOps C Tx) (calls : List (Call Tx H)) (m : Memory C H)
    (hcb : m.txPool.onAddCallbacks = []) (hg : m.goroutines = []) :
    (run ops calls m).txPool.onAddCallbacks = [] ∧ (run ops calls m).goroutines = [] := by
  induction calls generalizing m with
  | nil => exact ⟨hcb, hg⟩
  | cons call rest ih =>
    exact ih (call.exec ops m).2 ((exec_callbacks ops call m).trans hcb)
      ((exec_goroutines_of_no_callbacks ops call m hcb).trans hg)

/-- C14: RegisterHandler returns normally and leaves the callback set as it was, for every
memory and every handler, nil or not. Hence in every memory reached from a new pool by
calls of the facade the callback set is empty and no goroutine was ever started, and an
AddData from such a memory starts none. -/
theorem callbacks_are_never_stored (ops : TxCacheOps C Tx) (s : Memory C H) (f : Option H) :
    (RegisterHandler f s).1 = .ok () ∧
    (RegisterHandler f s).2.txPool.onAddCallbacks = s.txPool.onAddCallbacks ∧
    (∀ (config : CacheConfig) (calls : List (Call Tx H)),
      (run ops calls (NewShardedTxPool config)).txPool.onAddCallbacks = [] ∧
      (run ops calls (NewShardedTxPool config)).goroutines = []) ∧
    (∀ (config : CacheConfig) (calls : List (Call Tx H)) (key : ByteSlice) (value : Value Tx)
      (cacheID : String),
      (AddData ops key value cacheID (run ops calls (NewShardedTxPool config))).2.goroutines =
        []) := by
  have hrun : ∀ (config : CacheConfig) (calls : List (Call Tx H)),
      (run ops calls (NewShardedTxPool config)).txPool.onAddCallbacks = [] ∧
      (run ops calls (NewShardedTxPool config)).goroutines = [] :=
    fun config calls => run_no_callbacks ops calls _ rfl rfl
  refine ⟨rfl, rfl, hrun, ?_⟩
  intro config calls key value cacheID
  rw [AddData_goroutines_of_no_callbacks ops _ key value cacheID (hrun config calls).1]
  exact (hrun config calls).2

/-! ## A new pool -/

theorem rangeOrder_new (config : CacheConfig) (order : List String)
    (hord : RangeOrder (NewShardedTxPool config : Memory C H) order) : order = [] := by
  cases order with
  | nil => rfl
  | cons key rest => exact absurd rfl ((hord.2 key).mp (List.mem_cons_self _ _))

/-- C15: a newly constructed pool has no key in its registry, an empty callback set and
empty heaps, for every configuration; the only order a range over its registry can take
is the empty one, and SearchFirstData returns (nil, false) for every hash, leaving the
pool as it is. -/
theorem new_pool_is_empty (ops : TxCacheOps C Tx) (config : CacheConfig) (h : ByteSlice)
    (order : List String) :
    keys (NewShardedTxPool config : Memory C H) = ∅ ∧
    (∀ k, (NewShardedTxPool config : Memory C H).txPool.backingMap k = none) ∧
    (NewShardedTxPool config : Memory C H).txPool.onAddCallbacks = [] ∧
    (NewShardedTxPool config : Memory C H).txPool.cacheConfig = config ∧
    (NewShardedTxPool config : Memory C H).shards = [] ∧
    (NewShardedTxPool config : Memory C H).caches = [] ∧
    SearchFirstData ops [] h (NewShardedTxPool config : Memory C H) =
      (.ok (none, false), NewShardedTxPool config) ∧
    (RangeOrder (NewShardedTxPool config : Memory C H) order →
      order = [] ∧
      SearchFirstData ops order h (NewShardedTxPool config : Memory C H) =
        (.ok (none, false), NewShardedTxPool config)) := by
  refine ⟨?_, fun _ => rfl, rfl, rfl, rfl, rfl, rfl, ?_⟩
  · ext k
    simp [keys, NewShardedTxPool]
  · intro hord
    have he := rangeOrder_new config order hord
    subst he
    exact ⟨rfl, rfl⟩

/-- C15, at the example configuration and the hash 0xAA. -/
theorem new_pool_is_empty_witness :
    RangeOrder exampleNewPool [] ∧
    SearchFirstData specTxCache [] [170] exampleNewPool = (.ok (none, false), exampleNewPool) :=
  have hord : RangeOrder exampleNewPool [] :=
    ⟨List.nodup_nil, fun k => ⟨fun hk => absurd hk (List.not_mem_nil k), fun hk => absurd rfl hk⟩⟩
  ⟨hord, ((new_pool_is_empty specTxCache { Size := 1000, Shards := 16 } [170] []).2.2.2.2.2.2.2
    hord).2⟩

/-! ## The handle of a partition creates the partition -/

/-- C16: in a well-formed memory ShardDataStore returns (it does not panic) a pointer to
a cache of the heap (it is not nil). For a key that is not in the map, the pointer is to
a newly allocated cache with the contents NewTxCache builds from cacheConfig.Shards
(holding no hash whenever new caches hold none), one shard is allocated and the set
of keys of the registry grows by exactly that key. For a key that is in the map, the
pointer is the cache pointer of the shard registered under the key and the memory
is left exactly as it was. -/
theorem ShardDataStore_is_not_read_only (ops : TxCacheOps C Tx) (s : Memory C H) (k : String)
    (hwf : WellFormed s) :
    (s.txPool.backingMap k = none →
      (ShardDataStore ops k s).1 = .ok s.caches.length ∧
      (ShardDataStore ops k s).2.caches[s.caches.length]? =
        some (ops.NewTxCache s.txPool.cacheConfig.Shards) ∧
      ((∀ n h, (ops.GetByTxHash (ops.NewTxCache n) h).2 = false) →
        ∀ h, holds ops (ShardDataStore ops k s).2 k h = false) ∧
      k ∉ keys s ∧
      keys (ShardDataStore ops k s).2 = insert k (keys s) ∧
      (ShardDataStore ops k s).2.shards =
        s.shards ++ [{ CacheID := k, Cache := s.caches.length }] ∧
      (ShardDataStore ops k s).2.txPool.backingMap k = some s.shards.length) ∧
    (∀ a, s.txPool.backingMap k = some a →
      ∃ sh c, s.shards[a]? = some sh ∧ s.caches[sh.Cache]? = some c ∧
        ShardDataStore ops k s = (.ok sh.Cache, s)) ∧
    (∃ a c, (ShardDataStore ops k s).1 = .ok a ∧
      (ShardDataStore ops k s).2.caches[a]? = some c) := by
  refine ⟨?_, ?_, ?_⟩
  · intro hk
    have hmem : (ShardDataStore ops k s).2 = (getOrCreateShard ops k s).2 :=
      getTxCache_memory ops s k
    have hval : (ShardDataStore ops k s).1 = .ok s.caches.length := by
      simp [ShardDataStore, getTxCache, getOrCreateShard_of_unseen ops s k hk]
    rw [hmem]
    have hpc : partitionCache (getOrCreateShard ops k s).2 k =
        some (ops.NewTxCache s.txPool.cacheConfig.Shards) := by
      rw [partitionCache_getOrCreateShard_self ops s k hwf, hk]
    refine ⟨hval, ?_, ?_, ?_, ?_, ?_, ?_⟩
    · rw [getOrCreateShard_of_unseen ops s k hk]; simp
    · intro hempty h
      rw [holds_of_partitionCache ops _ k h _ hpc]
      exact hempty _ _
    · simp [keys, hk]
    · ext k2
      simp only [keys, Set.mem_setOf_eq, Set.mem_insert_iff]
      by_cases hne : k2 = k
      · subst hne
        simp [getOrCreateShard_maps_key]
      · simp [hne, getOrCreateShard_other_key ops s k k2 hne]
    · rw [getOrCreateShard_of_unseen ops s k hk]
    · rw [getOrCreateShard_of_unseen ops s k hk]; simp
  · intro a hk
    obtain ⟨sh, hs, hlt⟩ := hwf.valid k a hk
    refine ⟨sh, s.caches[sh.Cache], hs, List.getElem?_eq_getElem hlt, ?_⟩
    simp [ShardDataStore, getTxCache, getOrCreateShard_of_seen ops s k a hk, hs]
  · obtain ⟨a, c, hget, hca, -⟩ := getTxCache_of_wellFormed ops s k hwf
    refine ⟨a, c, ?_, ?_⟩
    · show (getTxCache ops k s).1 = .ok a
      rw [hget]
    · show (getTxCache ops k s).2.caches[a]? = some c
      rw [hget]; exact hca

/-- C16, at the example pool holding 0xAA under "1_2": the unseen key "0_1" and the seen
key "1_2". -/
theorem ShardDataStore_is_not_read_only_witness :
    WellFormed examplePool₁ ∧ examplePool₁.txPool.backingMap "0_1" = none ∧
    (ShardDataStore specTxCache "0_1" examplePool₁).1 = .ok 1 ∧
    (ShardDataStore specTxCache "0_1" examplePool₁).2.txPool.backingMap "0_1" = some 1 ∧
    examplePool₁.txPool.backingMap "1_2" = some 0 ∧
    (∃ sh c, examplePool₁.shards[0]? = some sh ∧ examplePool₁.caches[sh.Cache]? = some c ∧
      ShardDataStore specTxCache "1_2" examplePool₁ = (.ok sh.Cache, examplePool₁)) := by
  have h0 : examplePool₁.txPool.backingMap "0_1" = none := by decide
  have h1 : examplePool₁.txPool.backingMap "1_2" = some 0 := by decide
  have h := ShardDataStore_is_not_read_only specTxCache examplePool₁ "0_1"
    wellFormed_examplePool₁
  have h2 := ShardDataStore_is_not_read_only specTxCache examplePool₁ "1_2"
    wellFormed_examplePool₁
  exact ⟨wellFormed_examplePool₁, h0, (h.1 h0).1, (h.1 h0).2.2.2.2.2.2, h1, h2.2.1 0 h1⟩

/-! ## Every partition under its own key -/

/-- C17: in every memory reached from a new pool by calls of the facade, a key of the map
is mapped to a pointer that points to a shard object (it is not nil) whose CacheID is
that key and whose cache pointer points to a cache (it is not nil). -/
theorem registered_partition_carries_its_key (ops : TxCacheOps C Tx) (config : CacheConfig)
    (calls : List (Call Tx H)) (k : String) (a : Addr)
    (hk : (run ops calls (NewShardedTxPool config)).txPool.backingMap k = some a) :
    ∃ sh c, (run ops calls (NewShardedTxPool config)).shards[a]? = some sh ∧
      sh.CacheID = k ∧
      (run ops calls (NewShardedTxPool config)).caches[sh.Cache]? = some c := by
  obtain ⟨hwf, hkd, -⟩ := invariants_of_reachable ops config calls
  obtain ⟨sh, hs, hlt⟩ := hwf.valid k a hk
  exact ⟨sh, _, hs, hkd k a sh hk hs, List.getElem?_eq_getElem hlt⟩

/-- C17, on the pool reached from a new pool by adding 0xAA under "1_2" and 0xBB under
"0_1", with a refused call in between: the key "0_1". -/
theorem registered_partition_carries_its_key_witness :
    (run specTxCache
      [Call.AddData [170] (.transaction 7) "1_2", Call.CreateShardStore "0_1",
        Call.AddData [187] (.transaction 8) "0_1"]
      (NewShardedTxPool { Size := 1000, Shards := 16 } :
        Memory (List (ByteSlice × TransactionHandler Nat)) String)).txPool.backingMap "0_1" =
      some 1 ∧
    ∃ sh c, (run specTxCache
      [Call.AddData [170] (.transaction 7) "1_2", Call.CreateShardStore "0_1",
        Call.AddData [187] (.transaction 8) "0_1"]
      (NewShardedTxPool { Size := 1000, Shards := 16 } :
        Memory (List (ByteSlice × TransactionHandler Nat)) String)).shards[1]? = some sh ∧
      sh.CacheID = "0_1" ∧
      (run specTxCache
        [Call.AddData [170] (.transaction 7) "1_2", Call.CreateShardStore "0_1",
          Call.AddData [187] (.transaction 8) "0_1"]
        (NewShardedTxPool { Size := 1000, Shards := 16 } :
          Memory (List (ByteSlice × TransactionHandler Nat)) String)).caches[sh.Cache]? =
        some c := by
  have hk : (run specTxCache
      [Call.AddData [170] (.transaction 7) "1_2", Call.CreateShardStore "0_1",
        Call.AddData [187] (.transaction 8) "0_1"]
      (NewShardedTxPool { Size := 1000, Shards := 16 } :
        Memory (List (ByteSlice × TransactionHandler Nat)) String)).txPool.backingMap "0_1" =
      some 1 := by decide
  exact ⟨hk, registered_partition_carries_its_key specTxCache _ _ "0_1" 1 hk⟩

/-! ## Single creation under race -/

theorem getOrCreateShard_eq_createShard (ops : TxCacheOps C Tx) (m : Memory C H)
    (k : String) (hk : m.txPool.backingMap k = none) :
    getOrCreateShard ops k m = createShard ops k m :=
  getOrCreateShard_of_unseen ops m k hk

theorem createShard_maps_key (ops : TxCacheOps C Tx) (m : Memory C H) (k : String) :
    (createShard ops k m).2.txPool.backingMap k = some m.shards.length := by
  simp [createShard]

theorem getElem?_set_cases {α : Type} (l : List α) (i j : Nat) (x y : α)
    (h : (l.set i x)[j]? = some y) : (j = i ∧ y = x) ∨ (j ≠ i ∧ l[j]? = some y) := by
  by_cases hji : j = i
  · subst hji
    refine Or.inl ⟨rfl, ?_⟩
    have hlt : j < l.length := by
      have := lt_length_of_getElem?_eq_some _ _ _ h
      rwa [List.length_set] at this
    rw [List.getElem?_set_self hlt] at h
    exact (Option.some.inj h).symm
  · refine Or.inr ⟨hji, ?_⟩
    rwa [List.getElem?_set_ne (Ne.symm hji)] at h

theorem raceInv_init (ops : TxCacheOps C Tx) (k : String) (s : Memory C H) (n : Nat) :
    RaceInv ops k s (Race.init n s) := by
  have hstart : ∀ (i : Nat) (ci : Caller), (Race.init n s).callers[i]? = some ci →
      ci = Caller.start := by
    intro i ci h
    simp only [Race.init, List.getElem?_replicate] at h
    by_cases hi : i < n
    · simp [hi] at h; exact h.symm
    · simp [hi] at h
  constructor
  · intro i j ci cj hi _ hci _
    rw [hstart i ci hi] at hci
    exact Bool.noConfusion hci
  · intro i ci hi hci
    rw [hstart i ci hi] at hci
    exact Bool.noConfusion hci
  · exact Or.inl rfl
  · intro i ci q hi hq
    rw [hstart i ci hi] at hq
    exact Option.noConfusion hq
  · intro i hi
    exact Caller.noConfusion (hstart i _ hi)

/-- The invariant is kept by a step of caller i that neither takes nor gives back the
write lock and leaves the memory alone. -/
theorem raceInv_move (ops : TxCacheOps C Tx) (k : String) (s : Memory C H) (st : Race C H)
    (i : Nat) (ci c2 : Caller) (readers2 : Nat) (hinv : RaceInv ops k s st)
    (hi : st.callers[i]? = some ci) (hcrit : c2.inCritical = ci.inCritical)
    (hptr : ∀ q, c2.pointer = some q →
      st.mem = (createShard ops k s).2 ∧ q = s.shards.length)
    (hmiss : c2 = Caller.rechecked none → st.mem = s) :
    RaceInv ops k s { st with readers := readers2, callers := st.callers.set i c2 } := by
  have old : ∀ (j : Nat) (cj : Caller), (st.callers.set i c2)[j]? = some cj →
      cj.inCritical = true → ∃ dj, st.callers[j]? = some dj ∧ dj.inCritical = true := by
    intro j cj hj hc
    rcases getElem?_set_cases _ _ _ _ _ hj with ⟨rfl, rfl⟩ | ⟨-, hj2⟩
    · exact ⟨ci, hi, by rw [← hcrit]; exact hc⟩
    · exact ⟨cj, hj2, hc⟩
  constructor
  · intro a b ca cb ha hb hca hcb
    obtain ⟨da, hda, hdac⟩ := old a ca ha hca
    obtain ⟨db, hdb, hdbc⟩ := old b cb hb hcb
    exact hinv.excl a b da db hda hdb hdac hdbc
  · intro a ca ha hca
    obtain ⟨da, hda, hdac⟩ := old a ca ha hca
    exact hinv.held a da hda hdac
  · exact hinv.memCase
  · intro a ca q ha hq
    rcases getElem?_set_cases _ _ _ _ _ ha with ⟨rfl, rfl⟩ | ⟨-, ha2⟩
    · exact hptr q hq
    · exact hinv.ptr a ca q ha2 hq
  · intro a ha
    rcases getElem?_set_cases _ _ _ _ _ ha with ⟨rfl, he⟩ | ⟨-, ha2⟩
    · exact hmiss he.symm
    · exact hinv.miss a ha2

theorem raceInv_lookup (ops : TxCacheOps C Tx) (k : String) (s : Memory C H) (st : Race C H)
    (hk : s.txPool.backingMap k = none) (hinv : RaceInv ops k s st) :
    (∀ q, st.mem.txPool.backingMap k = some q →
      st.mem = (createShard ops k s).2 ∧ q = s.shards.length) ∧
    (st.mem.txPool.backingMap k = none → st.mem = s) := by
  rcases hinv.memCase with hm | hm
  · rw [hm]
    exact ⟨fun q hq => by rw [hk] at hq; exact Option.noConfusion hq, fun _ => rfl⟩
  · rw [hm, createShard_maps_key]
    exact ⟨fun q hq => ⟨rfl, (Option.some.inj hq).symm⟩, fun hn => Option.noConfusion hn⟩

theorem raceInv_step (ops : TxCacheOps C Tx) (k : String) (s : Memory C H) (st : Race C H)
    (i : Nat) (hk : s.txPool.backingMap k = none) (hinv : RaceInv ops k s st) :
    RaceInv ops k s (st.step ops k i) := by
  obtain ⟨hfound, hnone⟩ := raceInv_lookup ops k s st hk hinv
  unfold Race.step
  split
  · exact hinv
  · -- start
    rename_i hi
    split
    · exact hinv
    · exact raceInv_move ops k s st i _ .readLocked _ hinv hi rfl
        (fun q hq => Option.noConfusion hq) (fun he => Caller.noConfusion he)
  · -- readLocked
    rename_i hi
    exact raceInv_move ops k s st i _ (.readDone (st.mem.txPool.backingMap k)) st.readers
      hinv hi rfl hfound (fun he => Caller.noConfusion he)
  · -- readDone (some shard)
    rename_i shard hi
    exact raceInv_move ops k s st i _ (.returned shard) _ hinv hi rfl
      (fun q hq => hinv.ptr i _ q hi hq) (fun he => Caller.noConfusion he)
  · -- readDone none
    rename_i hi
    exact raceInv_move ops k s st i _ .wantLock _ hinv hi rfl
      (fun q hq => Option.noConfusion hq) (fun he => Caller.noConfusion he)
  · -- wantLock
    rename_i hi
    split
    · exact hinv
    · rename_i hfree
      have hw : st.writer = false := by
        cases hw : st.writer with
        | false => rfl
        | true => simp [hw] at hfree
      have nocrit : ∀ (j : Nat) (cj : Caller), st.callers[j]? = some cj →
          cj.inCritical = true → False := by
        intro j cj hj hc
        have := hinv.held j cj hj hc
        rw [hw] at this
        exact Bool.noConfusion this
      constructor
      · intro a b ca cb ha hb hca hcb
        rcases getElem?_set_cases _ _ _ _ _ ha with ⟨rfl, -⟩ | ⟨-, ha2⟩
        · rcases getElem?_set_cases _ _ _ _ _ hb with ⟨rfl, -⟩ | ⟨-, hb2⟩
          · rfl
          · exact (nocrit b cb hb2 hcb).elim
        · exact (nocrit a ca ha2 hca).elim
      · intro a ca _ _
        rfl
      · exact hinv.memCase
      · intro a ca q ha hq
        rcases getElem?_set_cases _ _ _ _ _ ha with ⟨rfl, rfl⟩ | ⟨-, ha2⟩
        · exact Option.noConfusion hq
        · exact hinv.ptr a ca q ha2 hq
      · intro a ha
        rcases getElem?_set_cases _ _ _ _ _ ha with ⟨rfl, he⟩ | ⟨-, ha2⟩
        · exact Caller.noConfusion he
        · exact hinv.miss a ha2
  · -- locked
    rename_i hi
    exact raceInv_move ops k s st i _ (.rechecked (st.mem.txPool.backingMap k)) st.readers
      hinv hi rfl hfound (fun he => hnone (Caller.rechecked.inj he))
  · -- rechecked (some shard)
    rename_i shard hi
    exact raceInv_move ops k s st i _ (.created shard) st.readers hinv hi rfl
      (fun q hq => hinv.ptr i _ q hi hq) (fun he => Caller.noConfusion he)
  · -- rechecked none
    rename_i hi
    have hm : st.mem = s := hinv.miss i hi
    constructor
    · intro a b ca cb ha hb hca hcb
      have old : ∀ (j : Nat) (cj : Caller),
          (st.callers.set i (.created (createShard ops k st.mem).1))[j]? = some cj →
          cj.inCritical = true → ∃ dj, st.callers[j]? = some dj ∧ dj.inCritical = true := by
        intro j cj hj hc
        rcases getElem?_set_cases _ _ _ _ _ hj with ⟨rfl, rfl⟩ | ⟨-, hj2⟩
        · exact ⟨_, hi, rfl⟩
        · exact ⟨cj, hj2, hc⟩
      obtain ⟨da, hda, hdac⟩ := old a ca ha hca
      obtain ⟨db, hdb, hdbc⟩ := old b cb hb hcb
      exact hinv.excl a b da db hda hdb hdac hdbc
    · intro a ca ha hca
      exact hinv.held i _ hi rfl
    · exact Or.inr (by rw [hm])
    · intro a ca q ha hq
      refine ⟨by rw [hm], ?_⟩
      rcases getElem?_set_cases _ _ _ _ _ ha with ⟨rfl, rfl⟩ | ⟨-, ha2⟩
      · have : (createShard ops k st.mem).1 = s.shards.length := by rw [hm]; rfl
        rw [← this]
        exact (Option.some.inj hq).symm
      · exact (hinv.ptr a ca q ha2 hq).2
    · intro a ha
      rcases getElem?_set_cases _ _ _ _ _ ha with ⟨rfl, he⟩ | ⟨hne, ha2⟩
      · exact Caller.noConfusion he
      · exact absurd (hinv.excl a i _ _ ha2 hi rfl rfl) hne
  · -- created shard
    rename_i shard hi
    have others : ∀ (j : Nat) (cj : Caller),
        (st.callers.set i (.returned shard))[j]? = some cj → cj.inCritical = true →
        False := by
      intro j cj hj hc
      rcases getElem?_set_cases _ _ _ _ _ hj with ⟨rfl, rfl⟩ | ⟨hne, hj2⟩
      · exact Bool.noConfusion hc
      · exact hne (hinv.excl j i cj _ hj2 hi hc rfl)
    constructor
    · intro a b ca cb ha _ hca _
      exact (others a ca ha hca).elim
    · intro a ca ha hca
      exact (others a ca ha hca).elim
    · exact hinv.memCase
    · intro a ca q ha hq
      rcases getElem?_set_cases _ _ _ _ _ ha with ⟨rfl, rfl⟩ | ⟨-, ha2⟩
      · exact hinv.ptr a _ q hi hq
      · exact hinv.ptr a ca q ha2 hq
    · intro a ha
      rcases getElem?_set_cases _ _ _ _ _ ha with ⟨rfl, he⟩ | ⟨-, ha2⟩
      · exact Caller.noConfusion he
      · exact hinv.miss a ha2
  · -- returned
    exact hinv

theorem raceInv_run (ops : TxCacheOps C Tx) (k : String) (s : Memory C H)
    (schedule : List Nat) (st : Race C H) (hk : s.txPool.backingMap k = none)
    (hinv : RaceInv ops k s st) : RaceInv ops k s (Race.run ops k schedule st) := by
  induction schedule generalizing st with
  | nil => exact hinv
  | cons i rest ih => exact ih (st.step ops k i) (raceInv_step ops k s st i hk hinv)

theorem step_callers_length (ops : TxCacheOps C Tx) (k : String) (st : Race C H) (i : Nat) :
    (st.step ops k i).callers.length = st.callers.length := by
  unfold Race.step
  split <;> try rfl
  all_goals first
    | (split <;> simp)
    | simp

theorem run_callers_length (ops : TxCacheOps C Tx) (k : String) (schedule : List Nat)
    (st : Race C H) : (Race.run ops k schedule st).callers.length = st.callers.length := by
  induction schedule generalizing st with
  | nil => rfl
  | cons i rest ih => exact (ih (st.step ops k i)).trans (step_callers_length ops k st i)

theorem run_append (ops : TxCacheOps C Tx) (k : String) (first second : List Nat)
    (st : Race C H) :
    Race.run ops k (first ++ second) st = Race.run ops k second (Race.run ops k first st) := by
  simp [Race.run, List.foldl_append]

/-- A caller that runs alone from the start, the lock being free, returns within seven
steps with the one partition, which it creates if it is not there. -/
theorem solo_run (ops : TxCacheOps C Tx) (k : String) (s : Memory C H) (st : Race C H)
    (i : Nat) (hk : s.txPool.backingMap k = none) (hinv : RaceInv ops k s st)
    (hi : st.callers[i]? = some Caller.start) (hw : st.writer = false)
    (hr : st.readers = 0) :
    Race.run ops k (List.replicate 7 i) st =
      { mem := (createShard ops k s).2, readers := 0, writer := false,
        callers := st.callers.set i (.returned s.shards.length) } := by
  obtain ⟨mem, readers, writer, callers⟩ := st
  have hmem := hinv.memCase
  simp only at hi hw hr hmem
  subst hw hr
  have hlt : i < callers.length := lt_length_of_getElem?_eq_some _ _ _ hi
  have hget : ∀ c : Caller, (callers.set i c)[i]? = some c :=
    fun c => List.getElem?_set_self hlt
  have hfst : (createShard ops k s).1 = s.shards.length := rfl
  rcases hmem with hm | hm
  · subst hm
    simp [Race.run, List.replicate, Race.step, hi, hget, hk, hfst, List.set_set]
  · subst hm
    simp [Race.run, List.replicate, Race.step, hi, hget, createShard_maps_key, List.set_set]

theorem oneByOne_run (ops : TxCacheOps C Tx) (k : String) (s : Memory C H)
    (hk : s.txPool.backingMap k = none) (ids : List Nat) :
    ∀ st : Race C H, RaceInv ops k s st → ids.Nodup →
      (∀ i ∈ ids, st.callers[i]? = some Caller.start) → st.writer = false →
      st.readers = 0 →
      (∀ i ∈ ids, (Race.run ops k (oneByOne ids) st).callers[i]? =
        some (Caller.returned s.shards.length)) ∧
      (∀ j, j ∉ ids → (Race.run ops k (oneByOne ids) st).callers[j]? = st.callers[j]?) ∧
      (Race.run ops k (oneByOne ids) st).writer = false ∧
      (Race.run ops k (oneByOne ids) st).readers = 0 := by
  induction ids with
  | nil =>
    intro st _ _ _ hw hr
    exact ⟨fun i hi => absurd hi (List.not_mem_nil i), fun _ _ => rfl, hw, hr⟩
  | cons i rest ih =>
    intro st hinv hnd hstart hw hr
    have hi := hstart i (List.mem_cons_self _ _)
    have hlt : i < st.callers.length := lt_length_of_getElem?_eq_some _ _ _ hi
    have hsplit : oneByOne (i :: rest) = List.replicate 7 i ++ oneByOne rest := by
      simp [oneByOne]
    have hsolo := solo_run ops k s st i hk hinv hi hw hr
    have hinv1 : RaceInv ops k s (Race.run ops k (List.replicate 7 i) st) :=
      raceInv_run ops k s _ st hk hinv
    have hnotin : i ∉ rest := (List.nodup_cons.mp hnd).1
    have hother : ∀ j, j ≠ i →
        (Race.run ops k (List.replicate 7 i) st).callers[j]? = st.callers[j]? := by
      intro j hj
      rw [hsolo]
      exact List.getElem?_set_ne (Ne.symm hj)
    obtain ⟨h1, h2, h3, h4⟩ := ih (Race.run ops k (List.replicate 7 i) st) hinv1
      (List.nodup_cons.mp hnd).2
      (fun j hj => by
        rw [hother j (fun e => hnotin (e ▸ hj))]
        exact hstart j (List.mem_cons_of_mem _ hj))
      (by rw [hsolo]) (by rw [hsolo])
    rw [hsplit, run_append]
    refine ⟨?_, ?_, h3, h4⟩
    · intro j hj
      rcases List.mem_cons.mp hj with rfl | hjr
      · rw [h2 j hnotin, hsolo]
        exact List.getElem?_set_self hlt
      · exact h1 j hjr
    · intro j hj
      have hji : j ≠ i := fun e => hj (e ▸ List.mem_cons_self _ _)
      have hjr : j ∉ rest := fun e => hj (List.mem_cons_of_mem _ e)
      rw [h2 j hjr, hother j hji]

/-! ### No caller is stuck for ever -/

theorem readers_after_set (callers : List Caller) (i : Nat) (c1 c2 : Caller)
    (h : callers[i]? = some c1) :
    List.countP Caller.inRead (callers.set i c2) + c1.inRead.toNat =
      List.countP Caller.inRead callers + c2.inRead.toNat := by
  induction callers generalizing i with
  | nil => simp at h
  | cons a t ih =>
    cases i with
    | zero =>
      simp only [List.getElem?_cons_zero, Option.some.injEq] at h
      subst h
      simp only [List.set_cons_zero, List.countP_cons]
      cases a.inRead <;> cases c2.inRead <;> simp
    | succ j =>
      simp only [List.getElem?_cons_succ] at h
      have := ih j h
      simp only [List.set_cons_succ, List.countP_cons]
      omega

theorem rank_set_lt (l : List Caller) (i : Nat) (x y : Caller) (h : l[i]? = some x)
    (hlt : y.rank < x.rank) :
    ((l.set i y).map Caller.rank).sum < (l.map Caller.rank).sum := by
  induction l generalizing i with
  | nil => simp at h
  | cons a t ih =>
    cases i with
    | zero =>
      simp only [List.getElem?_cons_zero, Option.some.injEq] at h
      subst h
      simp only [List.set_cons_zero, List.map_cons, List.sum_cons]
      omega
    | succ j =>
      simp only [List.getElem?_cons_succ] at h
      have := ih j h
      simp only [List.set_cons_succ, List.map_cons, List.sum_cons]
      omega

theorem raceLive_init (n : Nat) (m : Memory C H) : RaceLive (Race.init n m) := by
  constructor
  · intro hw
    exact Bool.noConfusion hw
  · show 0 = (List.replicate n Caller.start).countP Caller.inRead
    induction n with
    | zero => rfl
    | succ n ih =>
      simp only [List.replicate_succ, List.countP_cons, Caller.inRead]
      simpa using ih

theorem raceLive_step (ops : TxCacheOps C Tx) (k : String) (st : Race C H) (i : Nat)
    (hlive : RaceLive st) : RaceLive (st.step ops k i) := by
  have hcount := hlive.count
  -- the holder of the write lock still holds it after a step of a caller that does not
  have keep : ∀ (ci c2 : Caller), st.callers[i]? = some ci →
      (ci.inCritical = true → c2.inCritical = true) → st.writer = true →
      ∃ (j : Nat) (cj : Caller), (st.callers.set i c2)[j]? = some cj ∧
        cj.inCritical = true := by
    intro ci c2 hi hcc hw
    obtain ⟨j, cj, hj, hc⟩ := hlive.holder hw
    by_cases hji : j = i
    · subst hji
      have : cj = ci := Option.some.inj (hj.symm.trans hi)
      subst this
      exact ⟨j, c2, List.getElem?_set_self (lt_length_of_getElem?_eq_some _ _ _ hi), hcc hc⟩
    · exact ⟨j, cj, by rw [List.getElem?_set_ne (Ne.symm hji)]; exact hj, hc⟩
  unfold Race.step
  split
  · exact hlive
  · rename_i hi
    split
    · exact hlive
    · have hc := readers_after_set st.callers i _ Caller.readLocked hi
      simp only [Caller.inRead] at hc
      exact ⟨keep _ _ hi (fun h => Bool.noConfusion h), by simp only; simp at hc; omega⟩
  · rename_i hi
    have hc := readers_after_set st.callers i _
      (Caller.readDone (st.mem.txPool.backingMap k)) hi
    simp only [Caller.inRead] at hc
    exact ⟨keep _ _ hi (fun h => Bool.noConfusion h), by simp only; simp at hc; omega⟩
  · rename_i shard hi
    have hc := readers_after_set st.callers i _ (Caller.returned shard) hi
    simp only [Caller.inRead] at hc
    exact ⟨keep _ _ hi (fun h => Bool.noConfusion h), by simp only; simp at hc; omega⟩
  · rename_i hi
    have hc := readers_after_set st.callers i _ Caller.wantLock hi
    simp only [Caller.inRead] at hc
    exact ⟨keep _ _ hi (fun h => Bool.noConfusion h), by simp only; simp at hc; omega⟩
  · rename_i hi
    split
    · exact hlive
    · have hc := readers_after_set st.callers i _ Caller.locked hi
      simp only [Caller.inRead] at hc
      refine ⟨fun _ => ⟨i, Caller.locked,
        List.getElem?_set_self (lt_length_of_getElem?_eq_some _ _ _ hi), rfl⟩, ?_⟩
      simp only; simp at hc; omega
  · rename_i hi
    have hc := readers_after_set st.callers i _
      (Caller.rechecked (st.mem.txPool.backingMap k)) hi
    simp only [Caller.inRead] at hc
    exact ⟨keep _ _ hi (fun _ => rfl), by simp only; simp at hc; omega⟩
  · rename_i shard hi
    have hc := readers_after_set st.callers i _ (Caller.created shard) hi
    simp only [Caller.inRead] at hc
    exact ⟨keep _ _ hi (fun _ => rfl), by simp only; simp at hc; omega⟩
  · rename_i hi
    have hc := readers_after_set st.callers i _
      (Caller.created (createShard ops k st.mem).1) hi
    simp only [Caller.inRead] at hc
    exact ⟨keep _ _ hi (fun _ => rfl), by simp only; simp at hc; omega⟩
  · rename_i shard hi
    have hc := readers_after_set st.callers i _ (Caller.returned shard) hi
    simp only [Caller.inRead] at hc
    exact ⟨fun hw => Bool.noConfusion hw, by simp only; simp at hc; omega⟩
  · exact hlive

theorem raceLive_run (ops : TxCacheOps C Tx) (k : String) (schedule : List Nat)
    (st : Race C H) (hlive : RaceLive st) : RaceLive (Race.run ops k schedule st) := by
  induction schedule generalizing st with
  | nil => exact hlive
  | cons i rest ih => exact ih (st.step ops k i) (raceLive_step ops k st i hlive)

theorem step_lowers_rank (ops : TxCacheOps C Tx) (k : String) (st : Race C H) (j : Nat)
    (cj : Caller) (hj : st.callers[j]? = some cj) (hmove : cj.rank ≠ 0)
    (hstart : cj = Caller.start → st.writer = false)
    (hwant : cj = Caller.wantLock → st.writer = false ∧ st.readers = 0) :
    (st.step ops k j).rank < st.rank := by
  unfold Race.step Race.rank
  split
  · rename_i hn
    rw [hn] at hj
    exact Option.noConfusion hj
  · rename_i h
    have e : cj = Caller.start := Option.some.inj (hj.symm.trans h)
    simp only [hstart e]
    exact rank_set_lt _ _ _ _ h (by simp [Caller.rank])
  · rename_i h
    exact rank_set_lt _ _ _ _ h (by simp [Caller.rank])
  · rename_i shard h
    exact rank_set_lt _ _ _ _ h (by simp [Caller.rank])
  · rename_i h
    exact rank_set_lt _ _ _ _ h (by simp [Caller.rank])
  · rename_i h
    have e : cj = Caller.wantLock := Option.some.inj (hj.symm.trans h)
    simp only [(hwant e).1, (hwant e).2]
    exact rank_set_lt _ _ _ _ h (by simp [Caller.rank])
  · rename_i h
    exact rank_set_lt _ _ _ _ h (by simp [Caller.rank])
  · rename_i shard h
    exact rank_set_lt _ _ _ _ h (by simp [Caller.rank])
  · rename_i h
    exact rank_set_lt _ _ _ _ h (by simp [Caller.rank])
  · rename_i shard h
    exact rank_set_lt _ _ _ _ h (by simp [Caller.rank])
  · rename_i shard h
    have e : cj = Caller.returned shard := Option.some.inj (hj.symm.trans h)
    rw [e] at hmove
    exact absurd rfl hmove

/-- While some caller has not returned, some caller can take a step that brings it
nearer to its return. -/
theorem race_progress (ops : TxCacheOps C Tx) (k : String) (st : Race C H)
    (hlive : RaceLive st) (i : Nat) (c : Caller) (hi : st.callers[i]? = some c)
    (hc : c.rank ≠ 0) : ∃ j, (st.step ops k j).rank < st.rank := by
  cases hw : st.writer with
  | true =>
    obtain ⟨j, cj, hj, hcrit⟩ := hlive.holder hw
    refine ⟨j, step_lowers_rank ops k st j cj hj ?_ ?_ ?_⟩
    · cases cj <;> first | exact Bool.noConfusion hcrit | simp [Caller.rank]
    · intro e; rw [e] at hcrit; exact Bool.noConfusion hcrit
    · intro e; rw [e] at hcrit; exact Bool.noConfusion hcrit
  | false =>
    by_cases hwl : c = Caller.wantLock
    · by_cases hr : st.readers = 0
      · exact ⟨i, step_lowers_rank ops k st i c hi hc (fun _ => hw) (fun _ => ⟨hw, hr⟩)⟩
      · have hpos : 0 < st.callers.countP Caller.inRead := by
          rw [← hlive.count]; exact Nat.pos_of_ne_zero hr
        obtain ⟨cj, hmem, hread⟩ := List.countP_pos_iff.mp hpos
        obtain ⟨j, hj⟩ := List.mem_iff_getElem?.mp hmem
        refine ⟨j, step_lowers_rank ops k st j cj hj ?_ ?_ ?_⟩
        · cases cj <;> first | exact Bool.noConfusion hread | simp [Caller.rank]
        · intro e; rw [e] at hread; exact Bool.noConfusion hread
        · intro e; rw [e] at hread; exact Bool.noConfusion hread
    · exact ⟨i, step_lowers_rank ops k st i c hi hc (fun _ => hw) (fun e => absurd e hwl)⟩

/-- From every state of the race the callers can be scheduled so that all of them return. -/
theorem race_completes (ops : TxCacheOps C Tx) (k : String) :
    ∀ (r : Nat) (st : Race C H), st.rank = r → RaceLive st →
      ∃ rest : List Nat, ∀ (i : Nat) (c : Caller),
        (Race.run ops k rest st).callers[i]? = some c → c.rank = 0 := by
  intro r
  induction r using Nat.strong_induction_on with
  | _ r ih =>
    intro st hr hlive
    by_cases hex : ∃ (i : Nat) (c : Caller), st.callers[i]? = some c ∧ c.rank ≠ 0
    · obtain ⟨i, c, hi, hc⟩ := hex
      obtain ⟨j, hj⟩ := race_progress ops k st hlive i c hi hc
      obtain ⟨rest, hrest⟩ := ih (st.step ops k j).rank (hr ▸ hj) (st.step ops k j) rfl
        (raceLive_step ops k st j hlive)
      exact ⟨j :: rest, hrest⟩
    · refine ⟨[], fun i c hi => ?_⟩
      by_contra hne
      exact hex ⟨i, c, hi, hne⟩

/-- C13: n callers, n at least 1, call getOrCreateShard for a key that is unseen in the
memory s, and take their steps in the order of an arbitrary schedule. At every point
of every schedule the memory is s or the memory the sequential getOrCreateShard
leaves, so at most one partition was constructed, and a caller that has returned holds
the pointer to that partition. When all n callers have returned, exactly one shard
object was added to the heap and every caller holds the pointer to it. The callers
can all return: they do when they run one after the other, and every schedule,
wherever it has led, can be continued so that all n callers return the pointer to the
one partition. -/
theorem single_creation_under_race (ops : TxCacheOps C Tx) (s : Memory C H) (k : String)
    (n : Nat) (schedule : List Nat) (hn : 1 ≤ n) (hk : s.txPool.backingMap k = none) :
    (Race.run ops k schedule (Race.init n s)).callers.length = n ∧
    ((Race.run ops k schedule (Race.init n s)).mem = s ∨
      (Race.run ops k schedule (Race.init n s)).mem = (getOrCreateShard ops k s).2) ∧
    (∀ (i : Nat) (p : Addr),
      (Race.run ops k schedule (Race.init n s)).callers[i]? = some (Caller.returned p) →
      p = (getOrCreateShard ops k s).1 ∧
      (Race.run ops k schedule (Race.init n s)).mem = (getOrCreateShard ops k s).2) ∧
    ((∀ i, i < n → ∃ p,
        (Race.run ops k schedule (Race.init n s)).callers[i]? = some (Caller.returned p)) →
      (Race.run ops k schedule (Race.init n s)).mem.shards =
        s.shards ++ [{ CacheID := k, Cache := s.caches.length }] ∧
      (Race.run ops k schedule (Race.init n s)).mem.caches =
        s.caches ++ [ops.NewTxCache s.txPool.cacheConfig.Shards] ∧
      (Race.run ops k schedule (Race.init n s)).mem.txPool.backingMap k =
        some s.shards.length ∧
      ∀ i, i < n →
        (Race.run ops k schedule (Race.init n s)).callers[i]? =
          some (Caller.returned s.shards.length)) ∧
    (∀ i, i < n →
      (Race.run ops k (oneByOne (List.range n)) (Race.init n s)).callers[i]? =
        some (Caller.returned s.shards.length)) ∧
    (∃ rest : List Nat, ∀ i, i < n →
      (Race.run ops k (schedule ++ rest) (Race.init n s)).callers[i]? =
        some (Caller.returned s.shards.length)) := by
  have hinv := raceInv_run ops k s schedule (Race.init n s) hk (raceInv_init ops k s n)
  rw [getOrCreateShard_eq_createShard ops s k hk]
  have hret : ∀ (i : Nat) (p : Addr),
      (Race.run ops k schedule (Race.init n s)).callers[i]? = some (Caller.returned p) →
      p = (createShard ops k s).1 ∧
      (Race.run ops k schedule (Race.init n s)).mem = (createShard ops k s).2 := by
    intro i p hi
    obtain ⟨hm, hp⟩ := hinv.ptr i _ p hi rfl
    exact ⟨hp, hm⟩
  refine ⟨?_, hinv.memCase, hret, ?_, ?_, ?_⟩
  · rw [run_callers_length]; simp [Race.init]
  · intro hall
    obtain ⟨p0, h0⟩ := hall 0 hn
    have hm := (hret 0 p0 h0).2
    rw [hm]
    refine ⟨rfl, rfl, createShard_maps_key ops s k, ?_⟩
    intro i hi
    obtain ⟨p, hp⟩ := hall i hi
    rw [hp, (hret i p hp).1]
    rfl
  · intro i hi
    have hstart : ∀ j ∈ List.range n, (Race.init n s : Race C H).callers[j]? =
        some Caller.start := by
      intro j hj
      simp [Race.init, List.getElem?_replicate, List.mem_range.mp hj]
    exact (oneByOne_run ops k s hk (List.range n) (Race.init n s) (raceInv_init ops k s n)
      (List.nodup_range n) hstart rfl rfl).1 i (List.mem_range.mpr hi)
  · obtain ⟨rest, hrest⟩ := race_completes ops k _ (Race.run ops k schedule (Race.init n s))
      rfl (raceLive_run ops k schedule _ (raceLive_init n s))
    refine ⟨rest, fun i hi => ?_⟩
    have hinv2 := raceInv_run ops k s (schedule ++ rest) (Race.init n s) hk
      (raceInv_init ops k s n)
    have hlen : i < (Race.run ops k (schedule ++ rest) (Race.init n s)).callers.length := by
      rw [run_callers_length]; simpa [Race.init] using hi
    have hget := List.getElem?_eq_getElem hlen
    have hrank := hrest i _ (by rw [← run_append]; exact hget)
    rw [hget]
    cases hc : (Race.run ops k (schedule ++ rest) (Race.init n s)).callers[i] with
    | returned p =>
      rw [hc] at hget
      rw [(hinv2.ptr i _ p hget rfl).2]
    | _ => rw [hc] at hrank; simp [Caller.rank] at hrank

set_option maxRecDepth 100000 in
/-- C13, for three callers of getOrCreateShard("0_1") on the example pool holding 0xAA
under "1_2", stepping in turn: all three miss in the first lookup, one creates the
partition at address 1, and all three return that address. -/
theorem single_creation_under_race_witness :
    1 ≤ 3 ∧ examplePool₁.txPool.backingMap "0_1" = none ∧
    (Race.run specTxCache "0_1" (exampleSchedule.take 9) (Race.init 3 examplePool₁)).callers =
      [Caller.wantLock, Caller.wantLock, Caller.wantLock] ∧
    (Race.run specTxCache "0_1" exampleSchedule (Race.init 3 examplePool₁)).callers =
      [Caller.returned 1, Caller.returned 1, Caller.returned 1] ∧
    (Race.run specTxCache "0_1" exampleSchedule (Race.init 3 examplePool₁)).mem.shards =
      examplePool₁.shards ++ [{ CacheID := "0_1", Cache := examplePool₁.caches.length }] := by
  have hk : examplePool₁.txPool.backingMap "0_1" = none := by decide
  have hall : (Race.run specTxCache "0_1" exampleSchedule (Race.init 3 examplePool₁)).callers =
      [Caller.returned 1, Caller.returned 1, Caller.returned 1] := by decide
  have h := single_creation_under_race specTxCache examplePool₁ "0_1" 3 exampleSchedule
    (by decide) hk
  refine ⟨by decide, hk, by decide, hall, (h.2.2.2.1 ?_).1⟩
  intro i hi
  rw [hall]
  match i, hi with
  | 0, _ => exact ⟨1, rfl⟩
  | 1, _ => exact ⟨1, rfl⟩
  | 2, _ => exact ⟨1, rfl⟩

end txpool

namespace factory

/-- C18: PrepareOpenTopics makes exactly one call of SetTopicsForAll on the anti-flood
handler, after the calls made before. When the self id is the metachain shard id the
arguments are [HeartbeatTopic]; otherwise they are [HeartbeatTopic, TransactionTopic +
CommunicationIdentifierBetweenShards(selfID, selfID)]. -/
theorem PrepareOpenTopics_opens_transactions_off_metachain (imp : Imports)
    (antiflood : P2PAntifloodHandler) (selfID : Nat) :
    (∃ topics, PrepareOpenTopics imp antiflood selfID = antiflood ++ [topics]) ∧
    (PrepareOpenTopics imp antiflood selfID).length = antiflood.length + 1 ∧
    (selfID = imp.MetachainShardId →
      PrepareOpenTopics imp antiflood selfID = antiflood ++ [[imp.HeartbeatTopic]]) ∧
    (selfID ≠ imp.MetachainShardId →
      PrepareOpenTopics imp antiflood selfID =
        antiflood ++ [[imp.HeartbeatTopic,
          imp.TransactionTopic ++ imp.CommunicationIdentifierBetweenShards selfID selfID]]) := by
  by_cases hmeta : selfID = imp.MetachainShardId
  · have he : PrepareOpenTopics imp antiflood selfID = antiflood ++ [[imp.HeartbeatTopic]] := by
      simp [PrepareOpenTopics, SetTopicsForAll, hmeta]
    exact ⟨⟨_, he⟩, by rw [he]; simp, fun _ => he, fun hne => absurd hmeta hne⟩
  · have he : PrepareOpenTopics imp antiflood selfID =
        antiflood ++ [[imp.HeartbeatTopic,
          imp.TransactionTopic ++ imp.CommunicationIdentifierBetweenShards selfID selfID]] := by
      simp [PrepareOpenTopics, SetTopicsForAll, hmeta]
    exact ⟨⟨_, he⟩, by rw [he]; simp, fun h => absurd h hmeta, fun _ => he⟩

/-- C18, with the sample values: the metachain node and the node of shard 1, on a handler
that has received no call. -/
theorem PrepareOpenTopics_opens_transactions_off_metachain_witness :
    PrepareOpenTopics exampleImports [] 4294967295 = [["heartbeat"]] ∧
    PrepareOpenTopics exampleImports [] 1 = [["heartbeat", "transactions_1"]] := by
  refine ⟨?_, ?_⟩
  · exact (PrepareOpenTopics_opens_transactions_off_metachain exampleImports []
      4294967295).2.2.1 rfl
  · have h := (PrepareOpenTopics_opens_transactions_off_metachain exampleImports [] 1).2.2.2
      (by decide)
    rw [h]
    decide

end factory
